import Mathlib

set_option autoImplicit false

/-!
Verification of the game engine of `spotify-music-roulette`
(`src/lib/game/engine.ts`, data model in `src/lib/game/types.ts`,
`shuffleArray` in `src/lib/utils.ts`).

The engine is embedded shallowly:
* JS objects used as string-keyed records (`guesses`, `guessTimestamps`,
  `scores`, `heartTotals`, the Redis store) become association lists with
  JS semantics (insertion order, assignment overwrites in place).
* `Date.now()` becomes an explicit `now : Int` argument at each call site
  where the source reads the clock.
* `Math.random()` becomes an explicit stream `rand : Nat → Nat` together
  with a call counter; `Math.floor(Math.random() * (i + 1))` is modelled
  as `rand k % (i + 1)`, which ranges over exactly the values `0 … i`.
* The Redis store becomes an association list `Store`; each operation takes
  the store and returns the updated store together with its result.
-/

namespace MusicRoulette

/-- JS property read `r[k]`: the value at key `k`, if present. (A JS
object cannot hold a key twice, so the association list is keyed by first
occurrence.) -/
def recordGet {α : Type} : List (String × α) → String → Option α
  | [], _ => none
  | p :: rest, k => if p.1 == k then some p.2 else recordGet rest k

/-- JS `k in r`: key presence. -/
def recordHas {α : Type} : List (String × α) → String → Bool
  | [], _ => false
  | p :: rest, k => p.1 == k || recordHas rest k

/-- JS property write `r[k] = v`: overwrite in place if the key exists,
otherwise append (JS objects preserve insertion order). -/
def recordSet {α : Type} : List (String × α) → String → α → List (String × α)
  | [], k, v => [(k, v)]
  | p :: rest, k, v => if p.1 == k then (k, v) :: rest else p :: recordSet rest k v

/-- JS truthiness of an optional string (`undefined` and `""` are falsy). -/
def truthyString : Option String → Bool
  | none => false
  | some s => s != ""

/-- JS `x || d` for an optional number (`undefined` and `0` are falsy). -/
def jsOrInt : Option Int → Int → Int
  | none, d => d
  | some t, d => if t == 0 then d else t

/-- JS `x || 0` for an optional number. -/
def jsOrZero (x : Option Int) : Int :=
  jsOrInt x 0

/-! ## Data model (`src/lib/game/types.ts`)

Only the fields the engine reads or writes are kept; display-only metadata
(album art, artist lists, preview URLs, player images) is dropped, as the
engine never inspects it. -/

/-- `SpotifyTrack`: the engine only uses the stable `id` (de-duplication
key) and `name`. -/
structure SpotifyTrack where
  id : String
  name : String
deriving DecidableEq

/-- `Player` from `types.ts`. -/
structure Player where
  id : String
  name : String
  spotifyId : String
  topTracks : List SpotifyTrack
  isHost : Bool
  isConnected : Bool
  isReady : Bool
deriving DecidableEq

/-- `RoundSong`: a track paired with its single owner. -/
structure RoundSong where
  track : SpotifyTrack
  ownerId : String
  ownerName : String
deriving DecidableEq

/-- Round status: `'waiting' | 'playing' | 'revealing' | 'complete'`. -/
inductive RoundStatus where
  | waiting
  | playing
  | revealing
  | complete
deriving DecidableEq

/-- `Round` from `types.ts`. `startedAt` is optional in the source
(`startedAt?: number`). -/
structure Round where
  number : Nat
  song : RoundSong
  guesses : List (String × String)
  guessTimestamps : List (String × Int)
  hearts : List String
  status : RoundStatus
  startedAt : Option Int
deriving DecidableEq

/-- Game status: `'lobby' | 'playing' | 'finished'`. -/
inductive GameStatus where
  | lobby
  | playing
  | finished
deriving DecidableEq

/-- `GameState` from `types.ts` (`timeRange` kept as an opaque string). -/
structure GameState where
  code : String
  hostId : String
  status : GameStatus
  players : List Player
  rounds : List Round
  currentRound : Nat
  totalRounds : Nat
  scores : List (String × Int)
  heartTotals : List (String × Int)
  songPool : List RoundSong
  createdAt : Int
  timeRange : String
deriving DecidableEq

/-! ## Scoring constants (`engine.ts` lines 5–8, `types.ts` line 85) -/

def ROUND_DURATION : Int := 30

def BASE_POINTS : Int := 100

def POINTS_PER_SECOND_PENALTY : Int := 2

/-- `BASE_POINTS - (ROUND_DURATION * POINTS_PER_SECOND_PENALTY)`,
i.e. 40 points at 30 seconds. -/
def MIN_POINTS : Int := BASE_POINTS - ROUND_DURATION * POINTS_PER_SECOND_PENALTY

/-- `calculateTimeBasedScore` (`engine.ts` lines 16–21).
`Math.floor(elapsedMs / 1000)` is floor division, `Int.fdiv`. -/
def calculateTimeBasedScore (roundStartedAt guessTimestamp : Int) : Int :=
  let elapsedMs := guessTimestamp - roundStartedAt
  let elapsedSeconds := Int.fdiv elapsedMs 1000
  let score := BASE_POINTS - elapsedSeconds * POINTS_PER_SECOND_PENALTY
  max MIN_POINTS score

/-! ## The Redis store (`redis-storage.ts` boundary)

The store is a key-value map game code → `GameState`; the engine only uses
`get` and `set` on a single key per operation. -/

abbrev Store := List (String × GameState)

def getGameFromRedis (store : Store) (code : String) : Option GameState :=
  recordGet store code

def setGameInRedis (store : Store) (code : String) (game : GameState) : Store :=
  recordSet store code game

/-! ## Engine operations (`engine.ts`)

Each operation mirrors its source line by line: load the game, validate,
mutate in memory, persist, return. A JS `return null` before any store
write becomes `(store, none)` with the store unchanged. -/

/-- `startRound` (`engine.ts` lines 278–293). Note the source does not
check the round's current status: it unconditionally sets
`status = 'playing'` and re-stamps `startedAt = Date.now()`. -/
def startRound (store : Store) (code : String) (now : Int) :
    Store × Option Round :=
  match getGameFromRedis store code with
  | none => (store, none)
  | some game =>
    if game.status ≠ GameStatus.playing then (store, none)
    else
      match game.rounds[game.currentRound]? with
      | none => (store, none)
      | some currentRound =>
        let round' := { currentRound with
                        status := RoundStatus.playing
                        startedAt := some now }
        let game' := { game with rounds := game.rounds.set game.currentRound round' }
        (setGameInRedis store code game', some round')

/-- `submitGuess` (`engine.ts` lines 295–320). Note the source does not
check whether `playerId` is a roster member, nor whether the player has
already guessed: it unconditionally overwrites `guesses[playerId]` and
`guessTimestamps[playerId]`. `allGuessed` uses JS truthiness of
`guesses[p.id]`. -/
def submitGuess (store : Store) (code playerId guessedPlayerId : String)
    (now : Int) : Store × Option (Round × Bool) :=
  match getGameFromRedis store code with
  | none => (store, none)
  | some game =>
    if game.status ≠ GameStatus.playing then (store, none)
    else
      match game.rounds[game.currentRound]? with
      | none => (store, none)
      | some currentRound =>
        if currentRound.status ≠ RoundStatus.playing then (store, none)
        else
          let round' := { currentRound with
                          guesses := recordSet currentRound.guesses playerId guessedPlayerId
                          guessTimestamps :=
                            recordSet currentRound.guessTimestamps playerId now }
          let connectedPlayers := game.players.filter (·.isConnected)
          let allGuessed :=
            connectedPlayers.all (fun p => truthyString (recordGet round'.guesses p.id))
          let game' := { game with rounds := game.rounds.set game.currentRound round' }
          (setGameInRedis store code game', some (round', allGuessed))

/-- Result record of `endRound` (`engine.ts` line 322): the completed
round, the cumulative scores, the per-round scores and the heart totals. -/
structure EndRoundResult where
  round : Round
  scores : List (String × Int)
  roundScores : List (String × Int)
  heartTotals : List (String × Int)
deriving DecidableEq

/-- The body of the scoring `forEach` in `endRound` (`engine.ts` lines
340–351), named so its fold can be reasoned about: a correct guess is
scored by elapsed time and added to the cumulative scores; a wrong guess
records 0 round points and leaves the cumulative scores alone. The
accumulator is the pair `(roundScores, scores)`. -/
def scoreGuess (correctOwnerId : String) (guessTimestamps : List (String × Int))
    (roundStartedAt now : Int)
    (acc : List (String × Int) × List (String × Int)) (pg : String × String) :
    List (String × Int) × List (String × Int) :=
  if pg.2 == correctOwnerId then
    let guessTimestamp := jsOrInt (recordGet guessTimestamps pg.1) now
    let points := calculateTimeBasedScore roundStartedAt guessTimestamp
    (recordSet acc.1 pg.1 points,
     recordSet acc.2 pg.1 (jsOrZero (recordGet acc.2 pg.1) + points))
  else
    (recordSet acc.1 pg.1 0, acc.2)

/-- `endRound` (`engine.ts` lines 322–364). Note the source checks only
`game.status` and the existence of the current round — not the round's own
status — so an already-`complete` round is re-scored. The scoring loop is
`Object.entries(currentRound.guesses).forEach`, i.e. a fold over the
guesses in insertion order. -/
def endRound (store : Store) (code : String) (now : Int) :
    Store × Option EndRoundResult :=
  match getGameFromRedis store code with
  | none => (store, none)
  | some game =>
    if game.status ≠ GameStatus.playing then (store, none)
    else
      match game.rounds[game.currentRound]? with
      | none => (store, none)
      | some currentRound =>
        let round1 := { currentRound with status := RoundStatus.revealing }
        let correctOwnerId := round1.song.ownerId
        let roundStartedAt := jsOrInt round1.startedAt now
        let scored :=
          round1.guesses.foldl
            (scoreGuess correctOwnerId round1.guessTimestamps roundStartedAt now)
            ([], game.scores)
        let roundScores :=
          game.players.foldl
            (fun rs p => if recordHas rs p.id then rs else recordSet rs p.id 0)
            scored.1
        let round2 := { round1 with status := RoundStatus.complete }
        let game' := { game with
                       rounds := game.rounds.set game.currentRound round2
                       scores := scored.2 }
        (setGameInRedis store code game',
         some { round := round2
                scores := scored.2
                roundScores := roundScores
                heartTotals := game.heartTotals })

/-- JS `songPool[i]` when `i` is out of range yields `undefined`; this
sentinel stands for that value (only reachable outside the states the
lifecycle produces, where `currentRound < totalRounds ≤ songPool.length`). -/
def undefinedSong : RoundSong :=
  { track := { id := "", name := "" }, ownerId := "", ownerName := "" }

/-- `nextRound` (`engine.ts` lines 366–393). -/
def nextRound (store : Store) (code : String) : Store × Option Round :=
  match getGameFromRedis store code with
  | none => (store, none)
  | some game =>
    if game.status ≠ GameStatus.playing then (store, none)
    else
      let game1 := { game with currentRound := game.currentRound + 1 }
      if game1.currentRound ≥ game1.totalRounds then
        let game2 := { game1 with status := GameStatus.finished }
        (setGameInRedis store code game2, none)
      else
        let nextSong := game1.songPool.getD game1.currentRound undefinedSong
        let newRound : Round :=
          { number := game1.currentRound + 1
            song := nextSong
            guesses := []
            guessTimestamps := []
            hearts := []
            status := RoundStatus.waiting
            startedAt := none }
        let game2 := { game1 with rounds := game1.rounds ++ [newRound] }
        (setGameInRedis store code game2, some newRound)

/-! ## Song pool construction (`engine.ts` lines 110–234, `utils.ts` 18–25) -/

/-- Swap two positions of a list; the JS destructuring swap
`[a[i], a[k]] = [a[k], a[i]]` (identity when an index is out of range,
which never happens at the call sites). -/
def listSwap {α : Type} (l : List α) (i j : Nat) : List α :=
  match l[i]?, l[j]? with
  | some a, some b => (l.set i b).set j a
  | _, _ => l

/-- The Fisher–Yates loop indices `n-1, n-2, …, 1`. -/
def fisherYatesIndices (n : Nat) : List Nat :=
  ((List.range n).drop 1).reverse

/-- `shuffleArray` (`utils.ts` lines 18–25). `Math.random()` is the stream
`rand` indexed by a call counter `k`; `Math.floor(Math.random() * (i + 1))`
becomes `rand k % (i + 1)`, covering exactly the values `0 … i`. Returns
the shuffled list and the advanced counter. -/
def shuffleArray {α : Type} (rand : Nat → Nat) (k : Nat) (l : List α) :
    List α × Nat :=
  (fisherYatesIndices l.length).foldl
    (fun (st : List α × Nat) i =>
      let j := rand st.2 % (i + 1)
      (listSwap st.1 i j, st.2 + 1))
    (l, k)

/-- The inner `for (j = 1; j <= maxConsecutive; j++)` loop of
`spreadSongsByOwner`: starting at offset `off`, count how many successive
earlier positions hold `owner`, stopping at the first mismatch or when the
budget of checks is spent. -/
def runBack (songs : List RoundSong) (i : Nat) (owner : String) :
    Nat → Nat → Nat
  | _, 0 => 0
  | off, b + 1 =>
    match songs[i - off]? with
    | some s => if s.ownerId == owner then 1 + runBack songs i owner (off + 1) b else 0
    | none => 0

/-- The swap-target search of `spreadSongsByOwner`: the first position
`k > i` holding a different owner. -/
def findSwapIdx (songs : List RoundSong) (i : Nat) (owner : String) :
    Option Nat :=
  (List.range songs.length).find?
    (fun k => decide (i < k) &&
      (songs[k]?.elim false (fun s => s.ownerId != owner)))

/-- One iteration (position `i`) of the `spreadSongsByOwner` scan
(`engine.ts` lines 113–135). -/
def spreadStep (maxConsecutive : Nat) (songs : List RoundSong) (i : Nat) :
    List RoundSong :=
  match songs[i]? with
  | none => songs
  | some si =>
    let cnt := 1 + runBack songs i si.ownerId 1 maxConsecutive
    if cnt > maxConsecutive then
      match findSwapIdx songs i si.ownerId with
      | some k => listSwap songs i k
      | none => songs
    else songs

/-- `spreadSongsByOwner` (`engine.ts` lines 110–138): scan positions
`maxConsecutive … length-1` left to right, swapping a run-extending song
with the nearest later different-owner song. Swaps preserve the length, so
the JS loop bound `songs.length` is the initial length. -/
def spreadSongsByOwner (songs : List RoundSong) (maxConsecutive : Nat) :
    List RoundSong :=
  if songs.length ≤ maxConsecutive then songs
  else
    ((List.range songs.length).drop maxConsecutive).foldl
      (spreadStep maxConsecutive) songs

/-- `players.forEach((p) => songsByOwner.set(p.id, []))`
(`engine.ts` line 156). -/
def claimInit (players : List Player) : List (String × List RoundSong) :=
  players.foldl (fun m p => recordSet m p.id []) []

/-- The body of the ownership-resolution scan for one `(rank, player)`
pair (`engine.ts` lines 163–176): skip if the player has no track at this
rank or the track id is already claimed; otherwise claim it for this
player. -/
def claimStep (st : List String × List (String × List RoundSong))
    (player : Player) (rank : Nat) :
    List String × List (String × List RoundSong) :=
  match player.topTracks[rank]? with
  | none => st
  | some track =>
    if st.1.contains track.id then st
    else
      (st.1 ++ [track.id],
       recordSet st.2 player.id
         (((recordGet st.2 player.id).getD []) ++
          [{ track := track, ownerId := player.id, ownerName := player.name }]))

/-- The full ownership-resolution scan (`engine.ts` lines 162–177): ranks
outermost, players innermost, i.e. by rank tier in roster order. Returns
the claimed track ids (in claim order) and the per-player claimed songs. -/
def claimAll (players : List Player) (maxTracks : Nat) :
    List String × List (String × List RoundSong) :=
  (List.range maxTracks).foldl
    (fun st rank => players.foldl (fun st2 p => claimStep st2 p rank) st)
    ([], claimInit players)

/-- The per-player shuffle before contribution selection
(`engine.ts` lines 188–191), threading the `Math.random` call counter. -/
def shuffleOwners (rand : Nat → Nat) (players : List Player)
    (owners : List (String × List RoundSong)) (k : Nat) :
    List (String × List RoundSong) × Nat :=
  players.foldl
    (fun (st : List (String × List RoundSong) × Nat) p =>
      let (shuffled, k') := shuffleArray rand st.2 ((recordGet st.1 p.id).getD [])
      (recordSet st.1 p.id shuffled, k'))
    (owners, k)

/-- First pass (`engine.ts` lines 194–205): give each player
`base + (remainder > 0 ? 1 : 0)` songs (capped by availability),
decrementing the remainder as it is consumed. -/
def firstPass (players : List Player)
    (owners : List (String × List RoundSong)) (base rem : Nat) :
    List RoundSong × List (String × List RoundSong) :=
  let st := players.foldl
    (fun (st : List RoundSong × List (String × List RoundSong) × Nat) p =>
      let (pool, owners, remainder) := st
      let playerSongs := (recordGet owners p.id).getD []
      let targetCount := base + (if remainder > 0 then 1 else 0)
      let remainder' := remainder - (if remainder > 0 then 1 else 0)
      let songsToTake := min targetCount playerSongs.length
      (pool ++ playerSongs.take songsToTake,
       recordSet owners p.id (playerSongs.drop songsToTake),
       remainder'))
    ([], owners, rem)
  (st.1, st.2.1)

/-- One sweep of the backfill loop (`engine.ts` lines 211–221): each
player in roster order contributes one remaining song unless the pool has
reached `totalRounds`; the flag records whether anyone contributed. -/
def secondPassInner (players : List Player) (totalRounds : Nat)
    (pool : List RoundSong) (owners : List (String × List RoundSong)) :
    List RoundSong × List (String × List RoundSong) × Bool :=
  players.foldl
    (fun (st : List RoundSong × List (String × List RoundSong) × Bool) p =>
      let (pool, owners, addedAny) := st
      if pool.length ≥ totalRounds then st
      else
        match (recordGet owners p.id).getD [] with
        | [] => st
        | s :: rest => (pool ++ [s], recordSet owners p.id rest, true))
    (pool, owners, false)

/-- The backfill `while` loop (`engine.ts` lines 208–225). Every iteration
that recurses has strictly grown the pool (its flag was `true` and the
pool was below `totalRounds`), so fuel `totalRounds + 1` always reaches
the loop's own exit. -/
def secondPass (players : List Player) (totalRounds : Nat) :
    Nat → List RoundSong × List (String × List RoundSong) →
    List RoundSong × List (String × List RoundSong)
  | 0, st => st
  | fuel + 1, (pool, owners) =>
    if pool.length < totalRounds then
      let (pool', owners', addedAny) := secondPassInner players totalRounds pool owners
      if addedAny then secondPass players totalRounds fuel (pool', owners')
      else (pool', owners')
    else (pool, owners)

/-- `Math.max(...players.map((p) => p.topTracks.length))` for a nonempty
roster (`engine.ts` line 160). -/
def maxTracksOf (players : List Player) : Nat :=
  players.foldl (fun m p => max m p.topTracks.length) 0

/-- `buildSongPool` (`engine.ts` lines 147–234). The `console.log` of the
contribution distribution (lines 228–229) is a side effect with no bearing
on the returned pool and is not modelled. -/
def buildSongPool (rand : Nat → Nat) (players : List Player)
    (totalRounds : Nat) : List RoundSong :=
  let numPlayers := players.length
  if numPlayers = 0 then []
  else
    let maxTracks := maxTracksOf players
    let songsByOwner := (claimAll players maxTracks).2
    let baseSongsPerPlayer := totalRounds / numPlayers
    let remainder := totalRounds % numPlayers
    let (shuffledOwners, k1) := shuffleOwners rand players songsByOwner 0
    let (pool1, owners1) := firstPass players shuffledOwners baseSongsPerPlayer remainder
    let balancedPool := (secondPass players totalRounds (totalRounds + 1) (pool1, owners1)).1
    let shuffledPool := (shuffleArray rand k1 balancedPool).1
    spreadSongsByOwner shuffledPool 2

/-! ## Spec-side definitions for the pool claims -/

/-- Spec-side count from P1: the number of distinct track ids across all
players' libraries (`totalUniqueClaimedTracks`). -/
def totalUniqueClaimedTracks (players : List Player) : Nat :=
  ((players.flatMap (fun p => p.topTracks.map (·.id))).dedup).length

/-- The best (lowest) index at which a player ranks a track id, if any. -/
def rankOfTrack (p : Player) (trackId : String) : Option Nat :=
  (p.topTracks.map (·.id)).findIdx? (· == trackId)

/-- Modelled from the spec (§4.2 / P2): the owner a track id should
resolve to — among the players whose library contains it, the one ranking
it at the lowest index, ties broken in favor of the earliest player in
roster order. Written from the spec's words, to be compared with what the
claiming loop actually produces. -/
def specOwner (players : List Player) (trackId : String) : Option String :=
  let ranked := players.filterMap
    (fun p => (rankOfTrack p trackId).map (fun r => (r, p.id)))
  match ranked with
  | [] => none
  | x :: xs => some ((xs.foldl (fun best y => if y.1 < best.1 then y else best) x).2)

/-! ## Auxiliary notions for the pool claims -/

/-- All songs currently held in the per-player map (in entry order). -/
def ownersSongs (owners : List (String × List RoundSong)) : List RoundSong :=
  owners.flatMap (·.2)

/-- The keys of a record. -/
def ownerKeys {α : Type} (m : List (String × α)) : List String :=
  m.map Prod.fst

/-- The track id player `i` has at rank `r`, if any. -/
def trackIdAt (players : List Player) (r i : Nat) : Option String :=
  players[i]?.bind (fun p => p.topTracks[r]?.map (·.id))

/-- What it means for a round song to be correctly claimed: it comes from
an occurrence `(r, i)` of its track in player `i`'s list at rank `r` that
is lexicographically least (rank first, then roster position) among all
occurrences of that track id — i.e. the owner ranks the track highest,
ties broken by earliest roster order. -/
def claimedSongProp (players : List Player) (s : RoundSong) : Prop :=
  ∃ r i p t, players[i]? = some p ∧ p.topTracks[r]? = some t
    ∧ s = { track := t, ownerId := p.id, ownerName := p.name }
    ∧ ∀ r' i', trackIdAt players r' i' = some t.id →
        (r < r' ∨ (r = r' ∧ i ≤ i'))

/-- Invariant of the ownership-resolution scan, after the pairs
`(r, i)` with `r < maxR`, or `r = maxR ∧ i < boundI`, have been
processed. -/
def claimInv (players : List Player) (maxR boundI : Nat)
    (st : List String × List (String × List RoundSong)) : Prop :=
  st.1.Nodup
  ∧ (∀ id, id ∈ st.1 ↔ ∃ r i, (r < maxR ∨ (r = maxR ∧ i < boundI))
      ∧ trackIdAt players r i = some id)
  ∧ (ownersSongs st.2).length = st.1.length
  ∧ (∀ s ∈ ownersSongs st.2, claimedSongProp players s)
  ∧ (∀ k ∈ ownerKeys st.2, k ∈ players.map (·.id))
  ∧ (ownerKeys st.2).Nodup

/-- The owner at a pool position, if any. -/
def ownerAt (pool : List RoundSong) (i : Nat) : Option String :=
  pool[i]?.map (·.ownerId)

/-- Positions `i`, `i+1`, `i+2` of the pool exist and share one owner. -/
def run3At (pool : List RoundSong) (i : Nat) : Prop :=
  ownerAt pool i ≠ none
  ∧ ownerAt pool i = ownerAt pool (i + 1)
  ∧ ownerAt pool (i + 1) = ownerAt pool (i + 2)

instance (pool : List RoundSong) (i : Nat) : Decidable (run3At pool i) := by
  unfold run3At
  infer_instance

/-- All positions from `q` to the end of the pool share position `q`'s
owner. -/
def tailConstFrom (pool : List RoundSong) (q : Nat) : Prop :=
  ∀ j, q ≤ j → j < pool.length → ownerAt pool j = ownerAt pool q

/-- A run of three equal owners ending at position `p` (meaningful for
`p ≥ 2`). -/
def runEndAt (pool : List RoundSong) (p : Nat) : Prop :=
  ownerAt pool p ≠ none
  ∧ ownerAt pool (p - 2) = ownerAt pool p
  ∧ ownerAt pool (p - 1) = ownerAt pool p

/-- Invariant of the spread scan: every run of three ending before `m`
extends to the end of the pool. -/
def spreadGood (pool : List RoundSong) (m : Nat) : Prop :=
  ∀ p, 2 ≤ p → p < m → runEndAt pool p → tailConstFrom pool (p - 2)

/-! ## Concrete fixtures for witnesses and counterexamples -/

def mkTrack (s : String) : SpotifyTrack :=
  { id := s, name := s }

def mkPlayer (pid : String) (tracks : List String) : Player :=
  { id := pid, name := pid, spotifyId := pid
    topTracks := tracks.map mkTrack
    isHost := false, isConnected := true, isReady := true }

def exSong1 : RoundSong :=
  { track := mkTrack "t1", ownerId := "P1", ownerName := "P1" }

def exRound (st : RoundStatus) (guesses : List (String × String))
    (stamps : List (String × Int)) (startedAt : Option Int) : Round :=
  { number := 1, song := exSong1, guesses := guesses
    guessTimestamps := stamps, hearts := [], status := st, startedAt := startedAt }

def exGame (st : GameStatus) (rounds : List Round) (cur total : Nat) : GameState :=
  { code := "GAME", hostId := "P1", status := st
    players := [mkPlayer "P1" ["t1"], mkPlayer "P2" ["t2"]]
    rounds := rounds, currentRound := cur, totalRounds := total
    scores := [("P1", 0), ("P2", 0)], heartTotals := [("P1", 0), ("P2", 0)]
    songPool := [exSong1], createdAt := 0, timeRange := "medium_term" }

/-- C1 failing input: a game still in `playing` status whose current round
was already ended (status `complete`), with one correct guess on record. -/
def c1Round : Round :=
  exRound RoundStatus.playing [("P2", "P1")] [("P2", 5000)] (some 1000)

def c1Store0 : Store := [("GAME", exGame GameStatus.playing [c1Round] 0 1)]

/-- The store after the first `endRound` call. -/
def c1Store1 : Store := (endRound c1Store0 "GAME" 9999).1

/-- C2 input: the round already holds a guess and timestamp for `P2`. -/
def c2Round : Round :=
  exRound RoundStatus.playing [("P2", "P1")] [("P2", 1111)] (some 1000)

def c2Store : Store := [("GAME", exGame GameStatus.playing [c2Round] 0 1)]

/-- C3 input: the round is already `playing` with `startedAt = 1000`. -/
def c3Round : Round := exRound RoundStatus.playing [] [] (some 1000)

def c3Store : Store := [("GAME", exGame GameStatus.playing [c3Round] 0 1)]

/-- C4 inputs: a store without the game, and one with the game in `lobby`. -/
def c4StoreMissing : Store := []

def c4StoreLobby : Store := [("GAME", exGame GameStatus.lobby [] 0 1)]

/-- C9 input: a `playing` game on its last round
(`currentRound + 1 == totalRounds`). -/
def c9Game : GameState :=
  exGame GameStatus.playing [exRound RoundStatus.complete [] [] (some 1000)] 0 1

def c9Store : Store := [("GAME", c9Game)]

/-- C10 input: a `playing` game whose round is `playing` and has no
guesses yet; the guesser id `"GHOST"` is not a roster member. -/
def c10Round : Round := exRound RoundStatus.playing [] [] (some 1000)

def c10Store : Store := [("GAME", exGame GameStatus.playing [c10Round] 0 1)]

/-- C8 input: three players with 3, 1 and 1 tracks and 5 requested
rounds. -/
def c8Roster : List Player :=
  [mkPlayer "A" ["a1", "a2", "a3"], mkPlayer "B" ["b1"], mkPlayer "C" ["c1"]]

/-- C8 random stream: every `Math.random` draw picks `4 % (i + 1)`. -/
def c8Rand : Nat → Nat := fun _ => 4

def c8Pool : List RoundSong := buildSongPool c8Rand c8Roster 5

/-! ## Record (JS object) lemmas -/

theorem recordGet_recordSet_self {α : Type} (r : List (String × α))
    (k : String) (v : α) : recordGet (recordSet r k v) k = some v := by
  induction r with
  | nil => simp [recordGet, recordSet]
  | cons p rest ih =>
    by_cases h : p.1 = k
    · simp [recordSet, recordGet, h]
    · simp [recordSet, recordGet, h, ih]

theorem recordGet_recordSet_ne {α : Type} (r : List (String × α))
    (k k' : String) (v : α) (h : k' ≠ k) :
    recordGet (recordSet r k v) k' = recordGet r k' := by
  induction r with
  | nil => simp [recordGet, recordSet, Ne.symm h]
  | cons p rest ih =>
    by_cases hp : p.1 = k
    · simp [recordSet, recordGet, hp, Ne.symm h]
    · simp [recordSet, recordGet, hp, ih]

theorem recordHas_recordSet_self {α : Type} (r : List (String × α))
    (k : String) (v : α) : recordHas (recordSet r k v) k = true := by
  induction r with
  | nil => simp [recordSet, recordHas]
  | cons p rest ih =>
    by_cases hp : p.1 = k
    · simp [recordSet, recordHas, hp]
    · simp [recordSet, recordHas, hp, ih]

theorem recordHas_recordSet_ne {α : Type} (r : List (String × α))
    (k k' : String) (v : α) (h : k ≠ k') :
    recordHas (recordSet r k' v) k = recordHas r k := by
  induction r with
  | nil => simp [recordSet, recordHas, Ne.symm h]
  | cons p rest ih =>
    by_cases hp : p.1 = k'
    · simp [recordSet, recordHas, hp, Ne.symm h]
    · simp [recordSet, recordHas, hp, ih]

theorem recordHas_recordSet_mono {α : Type} (r : List (String × α))
    (k k' : String) (v : α) (h : recordHas r k = true) :
    recordHas (recordSet r k' v) k = true := by
  by_cases hk : k = k'
  · subst hk
    exact recordHas_recordSet_self r k v
  · rw [recordHas_recordSet_ne r k k' v hk]
    exact h

theorem recordGet_isSome_of_has {α : Type} (r : List (String × α))
    (k : String) (h : recordHas r k = true) : (recordGet r k).isSome := by
  induction r with
  | nil => simp [recordHas] at h
  | cons p rest ih =>
    simp [recordHas] at h
    by_cases hp : p.1 = k
    · simp [recordGet, hp]
    · simp [recordGet, hp]
      exact ih (by rcases h with h | h; exact absurd h hp; exact h)

theorem getGameFromRedis_setGameInRedis_self (store : Store) (code : String)
    (game : GameState) :
    getGameFromRedis (setGameInRedis store code game) code = some game :=
  recordGet_recordSet_self store code game

/-! ## C5: time-based scoring -/

/-- **C5**: for a correct guess at time `t ≥ s` (the round start), the
awarded score is exactly `max(MIN_POINTS, 100 − floor((t−s)/1000)·2)` with
`MIN_POINTS = 40`; the score is antitone in the guess time (earlier
guesses score at least as much), and every awarded score lies in
`[40, 100]`. -/
theorem calculateTimeBasedScore_correct (s t t1 t2 : Int)
    (ht : s ≤ t) (h1 : s ≤ t1) (h12 : t1 < t2) :
    calculateTimeBasedScore s t = max 40 (100 - (t - s).fdiv 1000 * 2)
    ∧ MIN_POINTS = 40
    ∧ calculateTimeBasedScore s t2 ≤ calculateTimeBasedScore s t1
    ∧ 40 ≤ calculateTimeBasedScore s t
    ∧ calculateTimeBasedScore s t ≤ 100 := by
  have hmin : MIN_POINTS = 40 := by decide
  refine ⟨by simp [calculateTimeBasedScore, hmin, BASE_POINTS,
    POINTS_PER_SECOND_PENALTY], hmin, ?_, ?_, ?_⟩
  · have hd : (t1 - s).fdiv 1000 ≤ (t2 - s).fdiv 1000 := by
      rw [Int.fdiv_eq_ediv _ (by norm_num), Int.fdiv_eq_ediv _ (by norm_num)]
      exact Int.ediv_le_ediv (by norm_num) (by omega)
    simp only [calculateTimeBasedScore]
    have : BASE_POINTS - (t2 - s).fdiv 1000 * POINTS_PER_SECOND_PENALTY ≤
        BASE_POINTS - (t1 - s).fdiv 1000 * POINTS_PER_SECOND_PENALTY := by
      simp only [POINTS_PER_SECOND_PENALTY]
      omega
    omega
  · simp only [calculateTimeBasedScore, hmin]
    omega
  · have hnn : 0 ≤ (t - s).fdiv 1000 := by
      rw [Int.fdiv_eq_ediv _ (by norm_num)]
      exact Int.ediv_nonneg (by omega) (by norm_num)
    simp only [calculateTimeBasedScore, hmin, BASE_POINTS, POINTS_PER_SECOND_PENALTY]
    omega

/-- C5 witness: a guess 4 seconds in scores 92, a guess 29 seconds in
scores less (the spec's own example values). -/
theorem calculateTimeBasedScore_correct_witness :
    calculateTimeBasedScore 0 4000 = max 40 (100 - ((4000 : Int) - 0).fdiv 1000 * 2)
    ∧ MIN_POINTS = 40
    ∧ calculateTimeBasedScore 0 29000 ≤ calculateTimeBasedScore 0 4000
    ∧ 40 ≤ calculateTimeBasedScore 0 4000
    ∧ calculateTimeBasedScore 0 4000 ≤ 100 :=
  calculateTimeBasedScore_correct 0 4000 4000 29000 (by decide) (by decide) (by decide)

/-! ## C1: `endRound` is not idempotent (code bug) -/

/-- **C1** (code bug evidence): `endRound` checks only `game.status` and
the round's existence, never the round's own status, so a second call on
the same round re-applies scoring. On the concrete input: the first call
awards `P2` 92 points (correct guess 4 s in) and completes the round; the
second call is not rejected and doubles the cumulative score to 184. -/
theorem endRound_rescores_completed_round :
    ((endRound c1Store0 "GAME" 9999).2.map
      (fun res => (recordGet res.scores "P2", res.round.status)))
      = some (some 92, RoundStatus.complete)
    ∧ ((endRound c1Store1 "GAME" 9999).2.map
      (fun res => (recordGet res.scores "P2", res.round.status)))
      = some (some 184, RoundStatus.complete) := by decide

/-! ## C2: `submitGuess` overwrites an existing guess -/

/-- **C2 counterexample**: the round already records guess `"P1"` at time
1111 for guesser `P2`; a second `submitGuess` for `P2` overwrites both the
guess and the timestamp (the claim said first guess wins). -/
theorem submitGuess_overwrites_cex :
    recordGet c2Round.guesses "P2" = some "P1"
    ∧ recordGet c2Round.guessTimestamps "P2" = some 1111
    ∧ ((submitGuess c2Store "GAME" "P2" "P2" 2222).2.map
        (fun rb => (recordGet rb.1.guesses "P2", recordGet rb.1.guessTimestamps "P2")))
      = some (some "P2", some 2222) := by decide

/-- **C2 amended**: `submitGuess` performs no already-guessed check; for a
game in `playing` status whose current round is `playing`, it
unconditionally records the new guess and the new timestamp for the
guesser — last submission wins, whether or not an earlier guess exists. -/
theorem submitGuess_last_write_wins (store : Store) (code pid gid : String)
    (now : Int) (game : GameState) (r : Round)
    (hg : getGameFromRedis store code = some game)
    (hs : game.status = GameStatus.playing)
    (hr : game.rounds[game.currentRound]? = some r)
    (hrs : r.status = RoundStatus.playing) :
    ((submitGuess store code pid gid now).2.map
      (fun rb => (recordGet rb.1.guesses pid, recordGet rb.1.guessTimestamps pid)))
      = some (some gid, some now) := by
  simp [submitGuess, hg, hs, hr, hrs, recordGet_recordSet_self]

/-- C2 witness: the amended behavior on the concrete fixture. -/
theorem submitGuess_last_write_wins_witness :
    ((submitGuess c2Store "GAME" "P2" "P2" 2222).2.map
      (fun rb => (recordGet rb.1.guesses "P2", recordGet rb.1.guessTimestamps "P2")))
      = some (some "P2", some 2222) :=
  submitGuess_last_write_wins c2Store "GAME" "P2" "P2" 2222
    (exGame GameStatus.playing [c2Round] 0 1) c2Round
    (by decide) (by decide) (by decide) (by decide)

/-! ## C3: `startRound` re-stamps the scoring clock -/

/-- **C3 counterexample**: the current round is already `playing` with
`startedAt = 1000`; a second `startRound` call at time 2000 returns the
round with `startedAt` reset to 2000 — not a no-op returning the existing
round. -/
theorem startRound_restamps_cex :
    c3Round.status = RoundStatus.playing
    ∧ c3Round.startedAt = some 1000
    ∧ ((startRound c3Store "GAME" 2000).2.map (·.startedAt)) = some (some 2000)
    ∧ (startRound c3Store "GAME" 2000).2 ≠ some c3Round := by decide

/-- **C3 amended**: `startRound` has no already-`playing` guard; whenever
the game is `playing` and the current round exists, it unconditionally
sets the round's status to `playing` and re-stamps `startedAt` with the
current time, persisting the change. -/
theorem startRound_restamps (store : Store) (code : String) (now : Int)
    (game : GameState) (r : Round)
    (hg : getGameFromRedis store code = some game)
    (hs : game.status = GameStatus.playing)
    (hr : game.rounds[game.currentRound]? = some r) :
    (startRound store code now).2
      = some { r with status := RoundStatus.playing, startedAt := some now } := by
  simp [startRound, hg, hs, hr]

/-- C3 witness: the amended behavior on the concrete fixture. -/
theorem startRound_restamps_witness :
    (startRound c3Store "GAME" 2000).2
      = some { c3Round with status := RoundStatus.playing, startedAt := some 2000 } :=
  startRound_restamps c3Store "GAME" 2000
    (exGame GameStatus.playing [c3Round] 0 1) c3Round
    (by decide) (by decide) (by decide)

/-! ## C4: failure conditions are collapsed, not distinguishable -/

/-- **C4 counterexample**: "game not found" (empty store) and "game not in
expected status" (game exists but is in `lobby`) produce the *same* result
value `none` from both `startRound` and `submitGuess` — the caller cannot
tell them apart, contradicting the claim that no two failure conditions
are collapsed. -/
theorem engine_failures_indistinguishable_cex :
    (startRound c4StoreMissing "GAME" 0).2 = (startRound c4StoreLobby "GAME" 0).2
    ∧ (startRound c4StoreMissing "GAME" 0).2 = none
    ∧ (submitGuess c4StoreMissing "GAME" "P1" "P2" 0).2
      = (submitGuess c4StoreLobby "GAME" "P1" "P2" 0).2
    ∧ (submitGuess c4StoreMissing "GAME" "P1" "P2" 0).2 = none := by decide

/-- **C4 amended**: in `startRound` and `submitGuess` every failure
condition — game not found, game not in `playing` status, current round
missing, and (for `submitGuess`) round not in `playing` status — returns
the one generic value `none`; "player not recognized" is not even detected
by `submitGuess`. Callers cannot distinguish any of these failures. -/
theorem engine_failures_collapse (store : Store) (code pid gid : String)
    (now : Int) :
    (getGameFromRedis store code = none →
      (startRound store code now).2 = none
      ∧ (submitGuess store code pid gid now).2 = none)
    ∧ (∀ game, getGameFromRedis store code = some game →
        game.status ≠ GameStatus.playing →
        (startRound store code now).2 = none
        ∧ (submitGuess store code pid gid now).2 = none)
    ∧ (∀ game, getGameFromRedis store code = some game →
        game.status = GameStatus.playing →
        game.rounds[game.currentRound]? = none →
        (startRound store code now).2 = none
        ∧ (submitGuess store code pid gid now).2 = none)
    ∧ (∀ game r, getGameFromRedis store code = some game →
        game.status = GameStatus.playing →
        game.rounds[game.currentRound]? = some r →
        r.status ≠ RoundStatus.playing →
        (submitGuess store code pid gid now).2 = none) := by
  refine ⟨fun h => ⟨by simp [startRound, h], by simp [submitGuess, h]⟩,
    fun game hg hs => ⟨by simp [startRound, hg, hs], by simp [submitGuess, hg, hs]⟩,
    fun game hg hs hr => ⟨by simp [startRound, hg, hs, hr], by simp [submitGuess, hg, hs, hr]⟩,
    fun game r hg hs hr hrs => by simp [submitGuess, hg, hs, hr, hrs]⟩

/-- C4 witness: the collapse on the concrete missing-game store. -/
theorem engine_failures_collapse_witness :
    (startRound c4StoreMissing "GAME" 0).2 = none
    ∧ (submitGuess c4StoreMissing "GAME" "P1" "P2" 0).2 = none :=
  (engine_failures_collapse c4StoreMissing "GAME" "P1" "P2" 0).1 (by decide)

/-! ## C9: the terminal transition -/

/-- **C9**: for a `playing` game with `currentRound + 1 == totalRounds`,
`nextRound` increments `currentRound`, sets the status to `finished`,
appends no new round, and returns null; and on the resulting store
`startRound`, `submitGuess`, `endRound` and a second `nextRound` are all
rejected with the store unchanged — no engine operation leaves
`finished`. -/
theorem nextRound_finishes_game (store : Store) (code : String)
    (game : GameState)
    (hg : getGameFromRedis store code = some game)
    (hs : game.status = GameStatus.playing)
    (hlast : game.currentRound + 1 = game.totalRounds) :
    (nextRound store code).2 = none
    ∧ (nextRound store code).1 = setGameInRedis store code
        { game with currentRound := game.currentRound + 1
                    status := GameStatus.finished }
    ∧ ((getGameFromRedis (nextRound store code).1 code).map (·.rounds))
        = some game.rounds
    ∧ ((getGameFromRedis (nextRound store code).1 code).map (·.status))
        = some GameStatus.finished
    ∧ (∀ now, startRound (nextRound store code).1 code now
        = ((nextRound store code).1, none))
    ∧ (∀ pid gid now, submitGuess (nextRound store code).1 code pid gid now
        = ((nextRound store code).1, none))
    ∧ (∀ now, endRound (nextRound store code).1 code now
        = ((nextRound store code).1, none))
    ∧ nextRound (nextRound store code).1 code = ((nextRound store code).1, none) := by
  have hge : game.totalRounds ≤ game.currentRound + 1 := by omega
  have hnr : nextRound store code = (setGameInRedis store code
      { game with currentRound := game.currentRound + 1
                  status := GameStatus.finished }, none) := by
    simp [nextRound, hg, hs, hge]
  refine ⟨by rw [hnr], by rw [hnr], ?_, ?_, ?_, ?_, ?_, ?_⟩
  · rw [hnr]
    simp [getGameFromRedis_setGameInRedis_self]
  · rw [hnr]
    simp [getGameFromRedis_setGameInRedis_self]
  · intro now
    rw [hnr]
    simp [startRound, getGameFromRedis_setGameInRedis_self]
  · intro pid gid now
    rw [hnr]
    simp [submitGuess, getGameFromRedis_setGameInRedis_self]
  · intro now
    rw [hnr]
    simp [endRound, getGameFromRedis_setGameInRedis_self]
  · rw [hnr]
    simp [nextRound, getGameFromRedis_setGameInRedis_self]

/-- C9 witness: the terminal transition on the concrete last-round game,
with the follow-up operations instantiated at concrete arguments. -/
theorem nextRound_finishes_game_witness :
    (nextRound c9Store "GAME").2 = none
    ∧ (nextRound c9Store "GAME").1 = setGameInRedis c9Store "GAME"
        { c9Game with currentRound := c9Game.currentRound + 1
                      status := GameStatus.finished }
    ∧ ((getGameFromRedis (nextRound c9Store "GAME").1 "GAME").map (·.rounds))
        = some c9Game.rounds
    ∧ ((getGameFromRedis (nextRound c9Store "GAME").1 "GAME").map (·.status))
        = some GameStatus.finished
    ∧ startRound (nextRound c9Store "GAME").1 "GAME" 7777
        = ((nextRound c9Store "GAME").1, none)
    ∧ submitGuess (nextRound c9Store "GAME").1 "GAME" "P1" "P2" 7777
        = ((nextRound c9Store "GAME").1, none)
    ∧ endRound (nextRound c9Store "GAME").1 "GAME" 7777
        = ((nextRound c9Store "GAME").1, none)
    ∧ nextRound (nextRound c9Store "GAME").1 "GAME"
        = ((nextRound c9Store "GAME").1, none) :=
  let h := nextRound_finishes_game c9Store "GAME" c9Game
    (by decide) (by decide) (by decide)
  ⟨h.1, h.2.1, h.2.2.1, h.2.2.2.1, h.2.2.2.2.1 7777,
   h.2.2.2.2.2.1 "P1" "P2" 7777, h.2.2.2.2.2.2.1 7777, h.2.2.2.2.2.2.2⟩

/-! ## C10: no player-membership validation in `submitGuess` -/

theorem scoreGuess_fold_has_mono (entries : List (String × String))
    (correct : String) (stamps : List (String × Int)) (startAt now : Int)
    (acc : List (String × Int) × List (String × Int)) (k : String)
    (h : recordHas acc.2 k = true) :
    recordHas (entries.foldl (scoreGuess correct stamps startAt now) acc).2 k
      = true := by
  induction entries generalizing acc with
  | nil => exact h
  | cons e rest ih =>
    rw [List.foldl_cons]
    apply ih
    unfold scoreGuess
    by_cases he : e.2 = correct
    · simp only [he, beq_self_eq_true, if_true]
      exact recordHas_recordSet_mono _ _ _ _ h
    · simp only [beq_eq_false_iff_ne, ne_eq, he, not_false_eq_true, if_neg,
        beq_iff_eq]
      exact h

theorem scoreGuess_fold_has_of_correct (entries : List (String × String))
    (correct : String) (stamps : List (String × Int)) (startAt now : Int)
    (acc : List (String × Int) × List (String × Int)) (k : String)
    (h : recordGet entries k = some correct) :
    recordHas (entries.foldl (scoreGuess correct stamps startAt now) acc).2 k
      = true := by
  induction entries generalizing acc with
  | nil => simp [recordGet] at h
  | cons e rest ih =>
    rw [List.foldl_cons]
    rw [recordGet] at h
    by_cases he : e.1 = k
    · rw [if_pos (by simp [he])] at h
      have hv : e.2 = correct := by injection h
      apply scoreGuess_fold_has_mono
      unfold scoreGuess
      simp only [hv, beq_self_eq_true, if_true]
      rw [← he]
      exact recordHas_recordSet_self _ _ _
    · rw [if_neg (by simp [he])] at h
      exact ih _ h

/-- **C10**: `submitGuess` performs no player-membership validation. For a
`playing` game whose current round is `playing`, any guesser id — roster
member or not — succeeds: the guess and timestamp are recorded under that
id, and if the guess names the round song's owner, a subsequent `endRound`
creates a cumulative `scores` entry under that id. The `scores` map can
therefore acquire keys that are not roster members. -/
theorem submitGuess_no_membership_validation (store : Store)
    (code guesser guessed : String) (now now2 : Int)
    (game : GameState) (r : Round)
    (hg : getGameFromRedis store code = some game)
    (hs : game.status = GameStatus.playing)
    (hr : game.rounds[game.currentRound]? = some r)
    (hrs : r.status = RoundStatus.playing)
    (hcorrect : guessed = r.song.ownerId) :
    ((submitGuess store code guesser guessed now).2.map
      (fun rb => (recordGet rb.1.guesses guesser,
                  recordGet rb.1.guessTimestamps guesser)))
      = some (some guessed, some now)
    ∧ ((endRound (submitGuess store code guesser guessed now).1 code now2).2.map
        (fun res => recordHas res.scores guesser)) = some true := by
  have hi : game.currentRound < game.rounds.length := by
    by_contra hh
    push_neg at hh
    rw [List.getElem?_eq_none hh] at hr
    exact Option.noConfusion hr
  constructor
  · simp [submitGuess, hg, hs, hr, hrs, recordGet_recordSet_self]
  · have hstore : (submitGuess store code guesser guessed now).1
        = setGameInRedis store code
          { game with rounds := game.rounds.set game.currentRound
                          ({ r with
                              guesses := recordSet r.guesses guesser guessed,
                              guessTimestamps :=
                                recordSet r.guessTimestamps guesser now }) } := by
      simp [submitGuess, hg, hs, hr, hrs]
    rw [hstore]
    simp [endRound, getGameFromRedis_setGameInRedis_self, hs,
      List.getElem?_set_self hi]
    apply scoreGuess_fold_has_of_correct
    rw [← hcorrect]
    exact recordGet_recordSet_self _ _ _

/-- C10 witness: the non-member id `"GHOST"` guesses correctly; the guess,
the timestamp and — after `endRound` — a cumulative score entry all appear
under `"GHOST"`, which is not in the roster. -/
theorem submitGuess_no_membership_validation_witness :
    ("GHOST" ∉ (exGame GameStatus.playing [c10Round] 0 1).players.map (·.id))
    ∧ (((submitGuess c10Store "GAME" "GHOST" "P1" 5000).2.map
        (fun rb => (recordGet rb.1.guesses "GHOST",
                    recordGet rb.1.guessTimestamps "GHOST")))
        = some (some "P1", some 5000)
      ∧ ((endRound (submitGuess c10Store "GAME" "GHOST" "P1" 5000).1 "GAME" 9000).2.map
          (fun res => recordHas res.scores "GHOST")) = some true) :=
  ⟨by decide,
   submitGuess_no_membership_validation c10Store "GAME" "GHOST" "P1" 5000 9000
     (exGame GameStatus.playing [c10Round] 0 1) c10Round
     (by decide) (by decide) (by decide) (by decide) (by decide)⟩

/-! ## Permutation and length lemmas for the shuffles and the spread -/

theorem listSwap_length {α : Type} (l : List α) (i j : Nat) :
    (listSwap l i j).length = l.length := by
  unfold listSwap
  split <;> simp

theorem listSwap_perm {α : Type} [DecidableEq α] (l : List α) (i j : Nat) :
    (listSwap l i j).Perm l := by
  unfold listSwap
  split
  · rename_i a b h1 h2
    obtain ⟨hi, ha⟩ := List.getElem?_eq_some.mp h1
    obtain ⟨hj, hb⟩ := List.getElem?_eq_some.mp h2
    subst ha
    subst hb
    rw [List.perm_iff_count]
    intro x
    have hjl : j < (l.set i l[j]).length := by simpa using hj
    rw [List.count_set _ _ _ _ hjl, List.count_set _ _ _ _ hi]
    have hset : (l.set i l[j])[j] = if i = j then l[j] else l[j] :=
      List.getElem_set hjl
    rw [hset, ite_self]
    by_cases hx1 : l[i] = x <;> by_cases hx2 : l[j] = x
    · have hc : 1 ≤ List.count x l :=
        List.count_pos_iff.mpr (hx1 ▸ List.getElem_mem hi)
      simp only [hx1, hx2, beq_self_eq_true, if_true]
      omega
    · have hc : 1 ≤ List.count x l :=
        List.count_pos_iff.mpr (hx1 ▸ List.getElem_mem hi)
      simp only [hx1, hx2, beq_self_eq_true, beq_iff_eq, if_true, if_neg,
        not_false_eq_true]
      omega
    · simp only [hx1, hx2, beq_self_eq_true, beq_iff_eq, if_true, if_neg,
        not_false_eq_true]
      omega
    · simp only [hx1, hx2, beq_iff_eq, if_neg, not_false_eq_true]
      omega
  · exact List.Perm.refl _

theorem foldSwap_perm {α : Type} [DecidableEq α] (rand : Nat → Nat)
    (idxs : List Nat) (l : List α) (k : Nat) :
    ((idxs.foldl
      (fun (st : List α × Nat) i =>
        let j := rand st.2 % (i + 1)
        (listSwap st.1 i j, st.2 + 1)) (l, k)).1).Perm l := by
  induction idxs generalizing l k with
  | nil => exact List.Perm.refl l
  | cons i rest ih =>
    rw [List.foldl_cons]
    exact (ih _ _).trans (listSwap_perm l i _)

theorem shuffleArray_perm {α : Type} [DecidableEq α] (rand : Nat → Nat)
    (k : Nat) (l : List α) : ((shuffleArray rand k l).1).Perm l :=
  foldSwap_perm rand (fisherYatesIndices l.length) l k

theorem spreadStep_perm (mc : Nat) (songs : List RoundSong) (i : Nat) :
    (spreadStep mc songs i).Perm songs := by
  unfold spreadStep
  split
  · exact List.Perm.refl _
  · rename_i si hsi
    by_cases h : 1 + runBack songs i si.ownerId 1 mc > mc
    · rw [if_pos h]
      split
      · exact listSwap_perm _ _ _
      · exact List.Perm.refl _
    · rw [if_neg h]

theorem spreadFold_perm (mc : Nat) (idxs : List Nat)
    (songs : List RoundSong) :
    (idxs.foldl (spreadStep mc) songs).Perm songs := by
  induction idxs generalizing songs with
  | nil => exact List.Perm.refl _
  | cons i rest ih =>
    rw [List.foldl_cons]
    exact (ih _).trans (spreadStep_perm mc songs i)

theorem spreadSongsByOwner_perm (songs : List RoundSong) (mc : Nat) :
    (spreadSongsByOwner songs mc).Perm songs := by
  unfold spreadSongsByOwner
  split
  · exact List.Perm.refl _
  · exact spreadFold_perm mc _ songs

/-! ## Record-key and `ownersSongs` lemmas -/

theorem ownerKeys_recordSet_mem {α : Type} (m : List (String × α))
    (k k' : String) (v : α) (h : k' ∈ ownerKeys (recordSet m k v)) :
    k' ∈ ownerKeys m ∨ k' = k := by
  induction m with
  | nil => simpa [recordSet, ownerKeys] using h
  | cons p rest ih =>
    by_cases hp : p.1 = k
    · simp only [recordSet, hp, beq_self_eq_true, if_true, ownerKeys,
        List.map_cons, List.mem_cons] at h ⊢
      tauto
    · simp only [recordSet, beq_iff_eq, hp, if_neg, ownerKeys,
        List.map_cons, List.mem_cons, not_false_eq_true] at h ⊢
      rcases h with h | h
      · exact Or.inl (Or.inl h)
      · rcases ih h with h' | h'
        · exact Or.inl (Or.inr h')
        · exact Or.inr h'

theorem ownerKeys_recordSet_nodup {α : Type} (m : List (String × α))
    (k : String) (v : α) (h : (ownerKeys m).Nodup) :
    (ownerKeys (recordSet m k v)).Nodup := by
  induction m with
  | nil => simp [recordSet, ownerKeys]
  | cons p rest ih =>
    simp only [ownerKeys, List.map_cons, List.nodup_cons] at h
    by_cases hp : p.1 = k
    · simp only [recordSet, hp, beq_self_eq_true, if_true, ownerKeys,
        List.map_cons, List.nodup_cons]
      exact ⟨hp ▸ h.1, h.2⟩
    · simp only [recordSet, beq_iff_eq, hp, if_neg, ownerKeys,
        List.map_cons, List.nodup_cons, not_false_eq_true]
      refine ⟨fun hmem => ?_, ih h.2⟩
      rcases ownerKeys_recordSet_mem rest k p.1 v hmem with h' | h'
      · exact h.1 h'
      · exact hp h'

theorem ownerKeys_recordSet_of_has {α : Type} (m : List (String × α))
    (k : String) (v : α) (h : recordHas m k = true) :
    ownerKeys (recordSet m k v) = ownerKeys m := by
  induction m with
  | nil => simp [recordHas] at h
  | cons p rest ih =>
    by_cases hp : p.1 = k
    · simp [recordSet, ownerKeys, hp]
    · have h' : recordHas rest k = true := by
        rw [recordHas] at h
        simpa [hp] using h
      have h2 := ih h'
      simp only [ownerKeys] at h2
      simp [recordSet, ownerKeys, hp, h2]

theorem recordGet_of_mem_nodup {α : Type} (m : List (String × α))
    (e : String × α) (hn : (ownerKeys m).Nodup) (he : e ∈ m) :
    recordGet m e.1 = some e.2 := by
  induction m with
  | nil => simp at he
  | cons p rest ih =>
    simp only [ownerKeys, List.map_cons, List.nodup_cons] at hn
    rcases List.mem_cons.mp he with h | h
    · subst h
      simp [recordGet]
    · have hne : p.1 ≠ e.1 := by
        intro hk
        exact hn.1 (hk ▸ List.mem_map_of_mem Prod.fst h)
      simp only [recordGet, beq_iff_eq, hne, if_neg, not_false_eq_true]
      exact ih hn.2 h

theorem recordHas_of_mem {α : Type} (m : List (String × α))
    (e : String × α) (he : e ∈ m) : recordHas m e.1 = true := by
  induction m with
  | nil => simp at he
  | cons p rest ih =>
    rcases List.mem_cons.mp he with h | h
    · subst h
      simp [recordHas]
    · simp [recordHas, ih h]

theorem mem_ownersSongs_recordSet (m : List (String × List RoundSong))
    (k : String) (v : List RoundSong) (s : RoundSong)
    (h : s ∈ ownersSongs (recordSet m k v)) :
    s ∈ ownersSongs m ∨ s ∈ v := by
  induction m with
  | nil => simpa [recordSet, ownersSongs] using h
  | cons p rest ih =>
    by_cases hp : p.1 = k
    · simp only [recordSet, hp, beq_self_eq_true, if_true, ownersSongs,
        List.flatMap_cons, List.mem_append] at h ⊢
      tauto
    · simp only [recordSet, beq_iff_eq, hp, if_neg, ownersSongs,
        List.flatMap_cons, List.mem_append, not_false_eq_true] at h ⊢
      rcases h with h | h
      · exact Or.inl (Or.inl h)
      · rcases ih h with h' | h'
        · exact Or.inl (Or.inr h')
        · exact Or.inr h'

theorem length_ownersSongs_recordSet (m : List (String × List RoundSong))
    (k : String) (v : List RoundSong) :
    (ownersSongs (recordSet m k v)).length
      + ((recordGet m k).getD []).length
      = (ownersSongs m).length + v.length := by
  induction m with
  | nil => simp [recordSet, recordGet, ownersSongs]
  | cons p rest ih =>
    by_cases hp : p.1 = k
    · simp only [recordSet, hp, beq_self_eq_true, if_true, ownersSongs,
        List.flatMap_cons, List.length_append, recordGet, Option.getD_some]
      omega
    · simp only [recordSet, beq_iff_eq, hp, if_neg, ownersSongs,
        List.flatMap_cons, List.length_append, recordGet, Option.getD_some,
        not_false_eq_true] at ih ⊢
      omega

/-! ## The ownership-resolution scan: invariant lemmas -/

theorem foldl_max_ge_init (l : List Player) (init : Nat) :
    init ≤ l.foldl (fun m p => max m p.topTracks.length) init := by
  induction l generalizing init with
  | nil => simp
  | cons q rest ih =>
    rw [List.foldl_cons]
    exact le_trans (le_max_left _ _) (ih _)

theorem foldl_max_ge_mem (l : List Player) (init : Nat) (p : Player)
    (hp : p ∈ l) :
    p.topTracks.length ≤ l.foldl (fun m p => max m p.topTracks.length) init := by
  induction l generalizing init with
  | nil => simp at hp
  | cons q rest ih =>
    rw [List.foldl_cons]
    rcases List.mem_cons.mp hp with h | h
    · subst h
      exact le_trans (le_max_right _ _) (foldl_max_ge_init rest _)
    · exact ih _ h

theorem maxTracksOf_ge (players : List Player) (p : Player)
    (hp : p ∈ players) : p.topTracks.length ≤ maxTracksOf players :=
  foldl_max_ge_mem players 0 p hp

theorem trackIdAt_eq (players : List Player) (r i : Nat) (p : Player)
    (hp : players[i]? = some p) :
    trackIdAt players r i = p.topTracks[r]?.map (·.id) := by
  simp [trackIdAt, hp]

theorem mem_ownersSongs_of_get (m : List (String × List RoundSong))
    (k : String) (v : List RoundSong) (hget : recordGet m k = some v)
    (s : RoundSong) (hs : s ∈ v) : s ∈ ownersSongs m := by
  induction m with
  | nil => simp [recordGet] at hget
  | cons p rest ih =>
    by_cases hp : p.1 = k
    · rw [recordGet, if_pos (by simp [hp])] at hget
      injection hget with hv
      subst hv
      simp [ownersSongs, hs]
    · rw [recordGet, if_neg (by simp [hp])] at hget
      simp only [ownersSongs, List.flatMap_cons, List.mem_append]
      exact Or.inr (ih hget)

theorem claimStep_eq_none {st : List String × List (String × List RoundSong)}
    {p : Player} {R : Nat} (h : p.topTracks[R]? = none) :
    claimStep st p R = st := by
  unfold claimStep
  rw [h]

theorem claimStep_eq_used {st : List String × List (String × List RoundSong)}
    {p : Player} {R : Nat} {t : SpotifyTrack} (h : p.topTracks[R]? = some t)
    (hc : st.1.contains t.id = true) : claimStep st p R = st := by
  unfold claimStep
  rw [h]
  exact if_pos hc

theorem claimStep_eq_new {st : List String × List (String × List RoundSong)}
    {p : Player} {R : Nat} {t : SpotifyTrack} (h : p.topTracks[R]? = some t)
    (hc : ¬ st.1.contains t.id = true) :
    claimStep st p R = (st.1 ++ [t.id],
      recordSet st.2 p.id ((recordGet st.2 p.id).getD []
        ++ [{ track := t, ownerId := p.id, ownerName := p.name }])) := by
  unfold claimStep
  rw [h]
  exact if_neg hc

/-- The single-step preservation lemma of the claiming scan: processing
player `p` (at roster position `done.length`) at rank `R` extends the
processed region by one pair. -/
theorem claimStep_inv (players : List Player) (R : Nat)
    (done : List Player) (p : Player) (rest : List Player)
    (hsplit : players = done ++ p :: rest)
    (st : List String × List (String × List RoundSong))
    (hInv : claimInv players R done.length st) :
    claimInv players R (done.length + 1) (claimStep st p R) := by
  obtain ⟨h1, h2, h3, h4, h5, h6⟩ := hInv
  have hp_at : players[done.length]? = some p := by
    rw [hsplit, List.getElem?_append_right (le_refl done.length)]
    simp
  have hp_mem : p ∈ players := by
    rw [hsplit]
    simp
  have hOcc : trackIdAt players R done.length = p.topTracks[R]?.map (·.id) :=
    trackIdAt_eq players R done.length p hp_at
  have hproc : ∀ r i, (r < R ∨ (r = R ∧ i < done.length + 1)) ↔
      ((r < R ∨ (r = R ∧ i < done.length)) ∨ (r = R ∧ i = done.length)) := by
    intro r i
    omega
  cases htr : p.topTracks[R]? with
  | none =>
    rw [claimStep_eq_none htr]
    refine ⟨h1, fun id => ?_, h3, h4, h5, h6⟩
    constructor
    · intro hid
      obtain ⟨r, i, hpr, hocc⟩ := (h2 id).mp hid
      exact ⟨r, i, by omega, hocc⟩
    · rintro ⟨r, i, hpr, hocc⟩
      rcases (hproc r i).mp hpr with hl | ⟨hr, hi⟩
      · exact (h2 id).mpr ⟨r, i, hl, hocc⟩
      · subst hr
        subst hi
        rw [hOcc, htr] at hocc
        exact absurd hocc (by simp)
  | some t =>
    by_cases hc : st.1.contains t.id = true
    · rw [claimStep_eq_used htr hc]
      refine ⟨h1, fun id => ?_, h3, h4, h5, h6⟩
      constructor
      · intro hid
        obtain ⟨r, i, hpr, hocc⟩ := (h2 id).mp hid
        exact ⟨r, i, by omega, hocc⟩
      · rintro ⟨r, i, hpr, hocc⟩
        rcases (hproc r i).mp hpr with hl | ⟨hr, hi⟩
        · exact (h2 id).mpr ⟨r, i, hl, hocc⟩
        · subst hr
          subst hi
          rw [hOcc, htr] at hocc
          have hid : id = t.id := by simpa using hocc.symm
          subst hid
          simpa using hc
    · rw [claimStep_eq_new htr hc]
      have hcmem : t.id ∉ st.1 := fun hmem => hc (by simpa using hmem)
      have hn1 : (st.1 ++ [t.id]).Nodup :=
        List.Nodup.append h1 (List.nodup_singleton _)
          (fun a ha hb => by
            simp only [List.mem_singleton] at hb
            subst hb
            exact hcmem ha)
      refine ⟨hn1, fun id => ?_, ?_, ?_, ?_,
        ownerKeys_recordSet_nodup _ _ _ h6⟩
      · constructor
        · intro hid
          rcases List.mem_append.mp hid with hid | hid
          · obtain ⟨r, i, hpr, hocc⟩ := (h2 id).mp hid
            exact ⟨r, i, by omega, hocc⟩
          · simp only [List.mem_singleton] at hid
            subst hid
            exact ⟨R, done.length, by omega, by rw [hOcc, htr]; rfl⟩
        · rintro ⟨r, i, hpr, hocc⟩
          rcases (hproc r i).mp hpr with hl | ⟨hr, hi⟩
          · exact List.mem_append.mpr (Or.inl ((h2 id).mpr ⟨r, i, hl, hocc⟩))
          · subst hr
            subst hi
            rw [hOcc, htr] at hocc
            have hid : id = t.id := by simpa using hocc.symm
            subst hid
            simp
      · have hlen := length_ownersSongs_recordSet st.2 p.id
          (((recordGet st.2 p.id).getD []) ++
           [{ track := t, ownerId := p.id, ownerName := p.name }])
        simp only [List.length_append, List.length_singleton] at hlen ⊢
        omega
      · intro s hs
        rcases mem_ownersSongs_recordSet _ _ _ _ hs with hs' | hs'
        · exact h4 s hs'
        · rcases List.mem_append.mp hs' with hs'' | hs''
          · cases hget : recordGet st.2 p.id with
            | none =>
              rw [hget] at hs''
              simp at hs''
            | some v =>
              rw [hget] at hs''
              exact h4 s (mem_ownersSongs_of_get st.2 p.id v hget s
                (by simpa using hs''))
          · simp only [List.mem_singleton] at hs''
            subst hs''
            refine ⟨R, done.length, p, t, hp_at, htr, rfl, ?_⟩
            intro r' i' hocc'
            by_cases hpr' : r' < R ∨ (r' = R ∧ i' < done.length)
            · have : t.id ∈ st.1 := (h2 t.id).mpr ⟨r', i', hpr', hocc'⟩
              exact absurd this hcmem
            · omega
      · intro k hk
        rcases ownerKeys_recordSet_mem _ _ _ _ hk with hk' | hk'
        · exact h5 k hk'
        · subst hk'
          exact List.mem_map_of_mem _ hp_mem

theorem claimInner_inv (players : List Player) (R : Nat) :
    ∀ (rest done : List Player)
      (st : List String × List (String × List RoundSong)),
    players = done ++ rest →
    claimInv players R done.length st →
    claimInv players R (done.length + rest.length)
      (rest.foldl (fun st2 p => claimStep st2 p R) st) := by
  intro rest
  induction rest with
  | nil =>
    intro done st hsplit hInv
    simpa using hInv
  | cons p rest' ih =>
    intro done st hsplit hInv
    rw [List.foldl_cons]
    have hsplit' : players = (done ++ [p]) ++ rest' := by simp [hsplit]
    have hstep := claimStep_inv players R done p rest' hsplit st hInv
    have hstep' : claimInv players R (done ++ [p]).length (claimStep st p R) := by
      simpa using hstep
    have hres := ih (done ++ [p]) (claimStep st p R) hsplit' hstep'
    simp only [List.length_append, List.length_singleton] at hres
    have hlen : done.length + (p :: rest').length = done.length + 1 + rest'.length := by
      simp
      omega
    rw [hlen]
    exact hres

theorem claimRank_inv (players : List Player) (R : Nat)
    (st : List String × List (String × List RoundSong))
    (hInv : claimInv players R 0 st) :
    claimInv players R players.length
      (players.foldl (fun st2 p => claimStep st2 p R) st) := by
  have h := claimInner_inv players R players [] st (by simp)
    (by simpa using hInv)
  simpa using h

theorem claimInv_rank_succ (players : List Player) (R : Nat)
    (st : List String × List (String × List RoundSong))
    (hInv : claimInv players R players.length st) :
    claimInv players (R + 1) 0 st := by
  obtain ⟨h1, h2, h3, h4, h5, h6⟩ := hInv
  refine ⟨h1, fun id => ?_, h3, h4, h5, h6⟩
  rw [h2 id]
  constructor
  · rintro ⟨r, i, hpr, hocc⟩
    exact ⟨r, i, by omega, hocc⟩
  · rintro ⟨r, i, hpr, hocc⟩
    refine ⟨r, i, ?_, hocc⟩
    have hi : i < players.length := by
      by_contra hh
      push_neg at hh
      rw [trackIdAt, List.getElem?_eq_none hh] at hocc
      simp at hocc
    omega

theorem claimRanks_inv (players : List Player) :
    ∀ (c R : Nat) (st : List String × List (String × List RoundSong)),
    claimInv players R 0 st →
    claimInv players (R + c) 0
      ((List.range' R c).foldl
        (fun st rank => players.foldl (fun st2 p => claimStep st2 p rank) st)
        st) := by
  intro c
  induction c with
  | zero =>
    intro R st h
    simpa using h
  | succ c' ih =>
    intro R st h
    rw [List.range'_succ, List.foldl_cons]
    have hone := claimRank_inv players R st h
    have hnext := claimInv_rank_succ players R _ hone
    have hres := ih (R + 1) _ hnext
    have hlen : R + (c' + 1) = R + 1 + c' := by omega
    rw [hlen]
    exact hres

theorem mem_recordSet {α : Type} (m : List (String × α)) (k : String)
    (v : α) (e : String × α) (h : e ∈ recordSet m k v) :
    e ∈ m ∨ e = (k, v) := by
  induction m with
  | nil => simpa [recordSet] using h
  | cons p rest ih =>
    by_cases hp : p.1 = k
    · simp only [recordSet, hp, beq_self_eq_true, if_true,
        List.mem_cons] at h ⊢
      tauto
    · simp only [recordSet, beq_iff_eq, hp, if_neg, List.mem_cons,
        not_false_eq_true] at h ⊢
      rcases h with h | h
      · exact Or.inl (Or.inl h)
      · rcases ih h with h' | h'
        · exact Or.inl (Or.inr h')
        · exact Or.inr h'

theorem ownersSongs_eq_nil (m : List (String × List RoundSong))
    (h : ∀ e ∈ m, e.2 = []) : ownersSongs m = [] := by
  induction m with
  | nil => rfl
  | cons p rest ih =>
    have hp : p.2 = [] := h p (by simp)
    simp only [ownersSongs, List.flatMap_cons, hp, List.nil_append]
    exact ih (fun e he => h e (by simp [he]))

theorem claimInit_props (players : List Player) :
    (∀ e ∈ claimInit players, e.2 = ([] : List RoundSong))
    ∧ (∀ k ∈ ownerKeys (claimInit players), k ∈ players.map (·.id))
    ∧ (ownerKeys (claimInit players)).Nodup := by
  unfold claimInit
  suffices h : ∀ (ps : List Player) (m₀ : List (String × List RoundSong)),
      (∀ e ∈ m₀, e.2 = ([] : List RoundSong)) →
      (∀ k ∈ ownerKeys m₀, k ∈ players.map (·.id)) →
      (∀ p ∈ ps, p.id ∈ players.map (·.id)) →
      (ownerKeys m₀).Nodup →
      (∀ e ∈ ps.foldl (fun m p => recordSet m p.id []) m₀,
        e.2 = ([] : List RoundSong))
      ∧ (∀ k ∈ ownerKeys (ps.foldl (fun m p => recordSet m p.id []) m₀),
          k ∈ players.map (·.id))
      ∧ (ownerKeys (ps.foldl (fun m p => recordSet m p.id []) m₀)).Nodup by
    exact h players [] (by simp) (by simp [ownerKeys])
      (fun p hp => List.mem_map_of_mem _ hp) (by simp [ownerKeys])
  intro ps
  induction ps with
  | nil =>
    intro m₀ h1 h2 _ h4
    exact ⟨h1, h2, h4⟩
  | cons q rest ih =>
    intro m₀ h1 h2 h3 h4
    rw [List.foldl_cons]
    refine ih (recordSet m₀ q.id []) ?_ ?_
      (fun p hp => h3 p (by simp [hp])) (ownerKeys_recordSet_nodup _ _ _ h4)
    · intro e he
      rcases mem_recordSet m₀ q.id [] e he with h | h
      · exact h1 e h
      · rw [h]
    · intro k hk
      rcases ownerKeys_recordSet_mem m₀ q.id k [] hk with h | h
      · exact h2 k h
      · subst h
        exact h3 q (by simp)

theorem claimAll_inv (players : List Player) (maxTracks : Nat) :
    claimInv players maxTracks 0 (claimAll players maxTracks) := by
  obtain ⟨he, hk, hn⟩ := claimInit_props players
  have hinit : claimInv players 0 0 ([], claimInit players) := by
    refine ⟨List.nodup_nil, fun id => ?_, ?_, ?_, hk, hn⟩
    · simp only [List.not_mem_nil, false_iff]
      rintro ⟨r, i, hpr, _⟩
      omega
    · simp [ownersSongs_eq_nil _ he]
    · intro s hs
      rw [show ([], claimInit players).2 = claimInit players from rfl,
        ownersSongs_eq_nil _ he] at hs
      simp at hs
  have h := claimRanks_inv players maxTracks 0 _ hinit
  unfold claimAll
  rw [List.range_eq_range']
  simpa using h

theorem claimAll_count (players : List Player) :
    (ownersSongs (claimAll players (maxTracksOf players)).2).length
      = totalUniqueClaimedTracks players := by
  obtain ⟨h1, h2, h3, h4, h5, h6⟩ := claimAll_inv players (maxTracksOf players)
  have hmem : ∀ id, id ∈ (claimAll players (maxTracksOf players)).1 ↔
      id ∈ players.flatMap (fun p => p.topTracks.map (·.id)) := by
    intro id
    rw [h2 id]
    constructor
    · rintro ⟨r, i, _, hocc⟩
      rw [trackIdAt] at hocc
      cases hp : players[i]? with
      | none =>
        rw [hp] at hocc
        simp at hocc
      | some p =>
        rw [hp] at hocc
        simp only [Option.some_bind] at hocc
        cases ht : p.topTracks[r]? with
        | none =>
          rw [ht] at hocc
          simp at hocc
        | some t =>
          rw [ht] at hocc
          have hid : t.id = id := by
            simpa using hocc
          refine List.mem_flatMap.mpr ⟨p, List.mem_iff_getElem?.mpr ⟨i, hp⟩, ?_⟩
          rw [← hid]
          exact List.mem_map_of_mem _ (List.mem_iff_getElem?.mpr ⟨r, ht⟩)
    · intro hid
      obtain ⟨p, hpmem, hidmem⟩ := List.mem_flatMap.mp hid
      obtain ⟨t, htmem, hteq⟩ := List.mem_map.mp hidmem
      obtain ⟨i, hip⟩ := List.mem_iff_getElem?.mp hpmem
      obtain ⟨r, htr⟩ := List.mem_iff_getElem?.mp htmem
      have hrlt : r < maxTracksOf players := by
        have hr1 : r < p.topTracks.length := (List.getElem?_eq_some.mp htr).1
        have hr2 := maxTracksOf_ge players p hpmem
        omega
      refine ⟨r, i, Or.inl hrlt, ?_⟩
      rw [trackIdAt, hip]
      simp [htr, hteq]
  have hperm : (claimAll players (maxTracksOf players)).1.Perm
      (players.flatMap (fun p => p.topTracks.map (·.id))).dedup := by
    rw [List.perm_ext_iff_of_nodup h1 (List.nodup_dedup _)]
    intro id
    rw [hmem id, List.mem_dedup]
  rw [h3, totalUniqueClaimedTracks, hperm.length_eq]

/-! ## The distribution passes: conservation and length lemmas -/

theorem shuffleOwners_props (rand : Nat → Nat) (players : List Player) :
    ∀ (owners : List (String × List RoundSong)) (k : Nat),
    ((ownersSongs (shuffleOwners rand players owners k).1).length
      = (ownersSongs owners).length)
    ∧ (∀ s ∈ ownersSongs (shuffleOwners rand players owners k).1,
        s ∈ ownersSongs owners)
    ∧ (∀ key ∈ ownerKeys (shuffleOwners rand players owners k).1,
        key ∈ ownerKeys owners ∨ key ∈ players.map (·.id))
    ∧ ((ownerKeys owners).Nodup →
        (ownerKeys (shuffleOwners rand players owners k).1).Nodup) := by
  induction players with
  | nil =>
    intro owners k
    exact ⟨rfl, fun s hs => hs, fun key hk => Or.inl hk, fun h => h⟩
  | cons q rest ih =>
    intro owners k
    have hunfold : shuffleOwners rand (q :: rest) owners k
        = shuffleOwners rand rest
            (recordSet owners q.id
              (shuffleArray rand k ((recordGet owners q.id).getD [])).1)
            (shuffleArray rand k ((recordGet owners q.id).getD [])).2 := rfl
    rw [hunfold]
    have hperm := shuffleArray_perm rand k ((recordGet owners q.id).getD [])
    obtain ⟨ihl, ihm, ihk, ihn⟩ := ih
      (recordSet owners q.id
        (shuffleArray rand k ((recordGet owners q.id).getD [])).1)
      (shuffleArray rand k ((recordGet owners q.id).getD [])).2
    have hlen1 : (ownersSongs (recordSet owners q.id
        (shuffleArray rand k ((recordGet owners q.id).getD [])).1)).length
        = (ownersSongs owners).length := by
      have := length_ownersSongs_recordSet owners q.id
        (shuffleArray rand k ((recordGet owners q.id).getD [])).1
      have hpl := hperm.length_eq
      omega
    have hmem1 : ∀ s ∈ ownersSongs (recordSet owners q.id
        (shuffleArray rand k ((recordGet owners q.id).getD [])).1),
        s ∈ ownersSongs owners := by
      intro s hs
      rcases mem_ownersSongs_recordSet _ _ _ _ hs with h | h
      · exact h
      · have hmem : s ∈ (recordGet owners q.id).getD [] := hperm.mem_iff.mp h
        cases hget : recordGet owners q.id with
        | none =>
          rw [hget] at hmem
          simp at hmem
        | some v =>
          rw [hget] at hmem
          exact mem_ownersSongs_of_get owners q.id v hget s hmem
    refine ⟨by rw [ihl, hlen1], fun s hs => hmem1 s (ihm s hs),
      fun key hk => ?_, fun h => ihn (ownerKeys_recordSet_nodup _ _ _ h)⟩
    rcases ihk key hk with h | h
    · rcases ownerKeys_recordSet_mem _ _ _ _ h with h' | h'
      · exact Or.inl h'
      · subst h'
        exact Or.inr (by simp)
    · exact Or.inr (by simp [h])

theorem firstPassAux_props (players : List Player) :
    ∀ (pool₀ : List RoundSong) (owners₀ : List (String × List RoundSong))
      (base rem : Nat),
    let res := players.foldl
      (fun (st : List RoundSong × List (String × List RoundSong) × Nat) p =>
        let playerSongs := (recordGet st.2.1 p.id).getD []
        let targetCount := base + (if st.2.2 > 0 then 1 else 0)
        let remainder' := st.2.2 - (if st.2.2 > 0 then 1 else 0)
        let songsToTake := min targetCount playerSongs.length
        (st.1 ++ playerSongs.take songsToTake,
         recordSet st.2.1 p.id (playerSongs.drop songsToTake),
         remainder'))
      (pool₀, owners₀, rem)
    (res.1.length + (ownersSongs res.2.1).length
      = pool₀.length + (ownersSongs owners₀).length)
    ∧ (res.1.length ≤ pool₀.length + base * players.length + rem)
    ∧ (∀ s ∈ res.1, s ∈ pool₀ ∨ s ∈ ownersSongs owners₀)
    ∧ (∀ s ∈ ownersSongs res.2.1, s ∈ ownersSongs owners₀)
    ∧ (∀ key ∈ ownerKeys res.2.1,
        key ∈ ownerKeys owners₀ ∨ key ∈ players.map (·.id))
    ∧ ((ownerKeys owners₀).Nodup → (ownerKeys res.2.1).Nodup) := by
  induction players with
  | nil =>
    intro pool₀ owners₀ base rem
    exact ⟨rfl, by simp, fun s hs => Or.inl hs, fun s hs => hs,
      fun key hk => Or.inl hk, fun h => h⟩
  | cons q rest ih =>
    intro pool₀ owners₀ base rem
    rw [List.foldl_cons]
    have hsongs : ∀ s ∈ (recordGet owners₀ q.id).getD [],
        s ∈ ownersSongs owners₀ := by
      intro s hs
      cases hget : recordGet owners₀ q.id with
      | none =>
        rw [hget] at hs
        simp at hs
      | some v =>
        rw [hget] at hs
        exact mem_ownersSongs_of_get owners₀ q.id v hget s hs
    obtain ⟨ihl, ihb, ihp, iho, ihk, ihn⟩ := ih
      (pool₀ ++ ((recordGet owners₀ q.id).getD []).take
        (min (base + (if rem > 0 then 1 else 0))
          ((recordGet owners₀ q.id).getD []).length))
      (recordSet owners₀ q.id
        (((recordGet owners₀ q.id).getD []).drop
          (min (base + (if rem > 0 then 1 else 0))
            ((recordGet owners₀ q.id).getD []).length)))
      base (rem - (if rem > 0 then 1 else 0))
    have hcons := length_ownersSongs_recordSet owners₀ q.id
      (((recordGet owners₀ q.id).getD []).drop
        (min (base + (if rem > 0 then 1 else 0))
          ((recordGet owners₀ q.id).getD []).length))
    refine ⟨?_, ?_, ?_, ?_, ?_, ?_⟩
    · rw [ihl]
      simp only [List.length_append, List.length_take, List.length_drop] at hcons ⊢
      omega
    · refine le_trans ihb ?_
      simp only [List.length_append, List.length_take, List.length_cons]
      by_cases hrem : rem > 0 <;> simp only [hrem, if_true, if_neg, not_false_eq_true] <;>
        (first
          | (have : min (base + 1) ((recordGet owners₀ q.id).getD []).length ≤ base + 1 :=
              min_le_left _ _
             ring_nf
             omega)
          | (have : min (base + 0) ((recordGet owners₀ q.id).getD []).length ≤ base + 0 :=
              min_le_left _ _
             ring_nf
             omega))
    · intro s hs
      rcases ihp s hs with h | h
      · rcases List.mem_append.mp h with h' | h'
        · exact Or.inl h'
        · exact Or.inr (hsongs s (List.mem_of_mem_take h'))
      · rcases mem_ownersSongs_recordSet _ _ _ _ h with h' | h'
        · exact Or.inr h'
        · exact Or.inr (hsongs s (List.mem_of_mem_drop h'))
    · intro s hs
      rcases mem_ownersSongs_recordSet _ _ _ _ (iho s hs) with h | h
      · exact h
      · exact hsongs s (List.mem_of_mem_drop h)
    · intro key hk
      rcases ihk key hk with h | h
      · rcases ownerKeys_recordSet_mem _ _ _ _ h with h' | h'
        · exact Or.inl h'
        · subst h'
          exact Or.inr (by simp)
      · exact Or.inr (by simp [h])
    · intro h
      exact ihn (ownerKeys_recordSet_nodup _ _ _ h)

theorem firstPass_props (players : List Player)
    (owners : List (String × List RoundSong)) (base rem : Nat) :
    ((firstPass players owners base rem).1.length
        + (ownersSongs (firstPass players owners base rem).2).length
      = (ownersSongs owners).length)
    ∧ ((firstPass players owners base rem).1.length
        ≤ base * players.length + rem)
    ∧ (∀ s ∈ (firstPass players owners base rem).1, s ∈ ownersSongs owners)
    ∧ (∀ s ∈ ownersSongs (firstPass players owners base rem).2,
        s ∈ ownersSongs owners)
    ∧ (∀ key ∈ ownerKeys (firstPass players owners base rem).2,
        key ∈ ownerKeys owners ∨ key ∈ players.map (·.id))
    ∧ ((ownerKeys owners).Nodup →
        (ownerKeys (firstPass players owners base rem).2).Nodup) := by
  obtain ⟨h1, h2, h3, h4, h5, h6⟩ := firstPassAux_props players [] owners base rem
  have hfp : firstPass players owners base rem
      = ((players.foldl
          (fun (st : List RoundSong × List (String × List RoundSong) × Nat) p =>
            let playerSongs := (recordGet st.2.1 p.id).getD []
            let targetCount := base + (if st.2.2 > 0 then 1 else 0)
            let remainder' := st.2.2 - (if st.2.2 > 0 then 1 else 0)
            let songsToTake := min targetCount playerSongs.length
            (st.1 ++ playerSongs.take songsToTake,
             recordSet st.2.1 p.id (playerSongs.drop songsToTake),
             remainder'))
          ([], owners, rem)).1,
        (players.foldl
          (fun (st : List RoundSong × List (String × List RoundSong) × Nat) p =>
            let playerSongs := (recordGet st.2.1 p.id).getD []
            let targetCount := base + (if st.2.2 > 0 then 1 else 0)
            let remainder' := st.2.2 - (if st.2.2 > 0 then 1 else 0)
            let songsToTake := min targetCount playerSongs.length
            (st.1 ++ playerSongs.take songsToTake,
             recordSet st.2.1 p.id (playerSongs.drop songsToTake),
             remainder'))
          ([], owners, rem)).2.1) := rfl
  rw [hfp]
  simp only [List.length_nil, Nat.zero_add] at h1 h2
  refine ⟨h1, h2, ?_, h4, h5, h6⟩
  intro s hs
  rcases h3 s hs with h | h
  · simp at h
  · exact h

theorem recordHas_of_get_isSome {α : Type} (m : List (String × α))
    (k : String) (h : (recordGet m k).isSome = true) :
    recordHas m k = true := by
  induction m with
  | nil => simp [recordGet] at h
  | cons e rest ih =>
    by_cases he : e.1 = k
    · simp [recordHas, he]
    · rw [recordGet, if_neg (by simp [he])] at h
      simpa [recordHas, he] using ih h

theorem secondPassInnerAux_props (totalRounds : Nat) (players : List Player) :
    ∀ (pool₀ : List RoundSong) (owners₀ : List (String × List RoundSong))
      (flag₀ : Bool),
    let res := players.foldl
      (fun (st : List RoundSong × List (String × List RoundSong) × Bool) p =>
        if st.1.length ≥ totalRounds then st
        else
          match (recordGet st.2.1 p.id).getD [] with
          | [] => st
          | s :: rest => (st.1 ++ [s], recordSet st.2.1 p.id rest, true))
      (pool₀, owners₀, flag₀)
    (res.1.length + (ownersSongs res.2.1).length
      = pool₀.length + (ownersSongs owners₀).length)
    ∧ (pool₀.length ≤ res.1.length)
    ∧ (pool₀.length ≤ totalRounds → res.1.length ≤ totalRounds)
    ∧ (res.2.2 = false → res.1 = pool₀ ∧ res.2.1 = owners₀ ∧ flag₀ = false
        ∧ (pool₀.length < totalRounds →
            ∀ p ∈ players, (recordGet owners₀ p.id).getD [] = []))
    ∧ (flag₀ = false → res.2.2 = true → pool₀.length + 1 ≤ res.1.length)
    ∧ (∀ s ∈ res.1, s ∈ pool₀ ∨ s ∈ ownersSongs owners₀)
    ∧ (∀ s ∈ ownersSongs res.2.1, s ∈ ownersSongs owners₀)
    ∧ (ownerKeys res.2.1 = ownerKeys owners₀) := by
  induction players with
  | nil =>
    intro pool₀ owners₀ flag₀
    exact ⟨rfl, le_refl _, fun h => h,
      fun h => ⟨rfl, rfl, h, fun _ p hp => absurd hp (List.not_mem_nil p)⟩,
      fun h h' => absurd (h ▸ h') (by simp),
      fun s hs => Or.inl hs, fun s hs => hs, rfl⟩
  | cons q rest ih =>
    intro pool₀ owners₀ flag₀
    rw [List.foldl_cons]
    by_cases hge : pool₀.length ≥ totalRounds
    · rw [if_pos hge]
      obtain ⟨ihl, ihmono, ihle, ihfalse, ihtrue, ihmp, ihmo, ihk⟩ :=
        ih pool₀ owners₀ flag₀
      refine ⟨ihl, ihmono, ihle, fun h => ?_, ihtrue, ihmp, ihmo, ihk⟩
      obtain ⟨ha, hb, hc, hd⟩ := ihfalse h
      exact ⟨ha, hb, hc, fun hlt => absurd hge (by omega)⟩
    · rw [if_neg hge]
      cases hget : (recordGet owners₀ q.id).getD [] with
      | nil =>
        obtain ⟨ihl, ihmono, ihle, ihfalse, ihtrue, ihmp, ihmo, ihk⟩ :=
          ih pool₀ owners₀ flag₀
        refine ⟨ihl, ihmono, ihle, fun h => ?_, ihtrue, ihmp, ihmo, ihk⟩
        obtain ⟨ha, hb, hc, hd⟩ := ihfalse h
        refine ⟨ha, hb, hc, fun hlt p hp => ?_⟩
        rcases List.mem_cons.mp hp with h' | h'
        · rw [h']
          exact hget
        · exact hd hlt p h'
      | cons s srest =>
        obtain ⟨ihl, ihmono, ihle, ihfalse, ihtrue, ihmp, ihmo, ihk⟩ :=
          ih (pool₀ ++ [s]) (recordSet owners₀ q.id srest) true
        have hhas : recordHas owners₀ q.id = true := by
          apply recordHas_of_get_isSome
          cases hg : recordGet owners₀ q.id with
          | none =>
            rw [hg] at hget
            simp at hget
          | some v => rfl
        have hcons := length_ownersSongs_recordSet owners₀ q.id srest
        have hget' : ((recordGet owners₀ q.id).getD []).length = srest.length + 1 := by
          rw [hget]
          simp
        have hsongs : ∀ x ∈ (recordGet owners₀ q.id).getD [],
            x ∈ ownersSongs owners₀ := by
          intro x hx
          cases hg : recordGet owners₀ q.id with
          | none =>
            rw [hg] at hx
            simp at hx
          | some v =>
            rw [hg] at hx
            exact mem_ownersSongs_of_get owners₀ q.id v hg x hx
        refine ⟨?_, ?_, ?_, ?_, ?_, ?_, ?_, ?_⟩
        · rw [ihl]
          simp only [List.length_append, List.length_singleton]
          omega
        · calc pool₀.length ≤ (pool₀ ++ [s]).length := by simp
            _ ≤ _ := ihmono
        · intro hle
          exact ihle (by simp; omega)
        · intro h
          obtain ⟨ha, hb, hc, hd⟩ := ihfalse h
          exact absurd hc (by simp)
        · intro hf hres
          calc pool₀.length + 1 = (pool₀ ++ [s]).length := by simp
            _ ≤ _ := ihmono
        · intro x hx
          rcases ihmp x hx with h | h
          · rcases List.mem_append.mp h with h' | h'
            · exact Or.inl h'
            · simp only [List.mem_singleton] at h'
              subst h'
              exact Or.inr (hsongs x (by rw [hget]; simp))
          · rcases mem_ownersSongs_recordSet _ _ _ _ h with h' | h'
            · exact Or.inr h'
            · exact Or.inr (hsongs x (by rw [hget]; simp [h']))
        · intro x hx
          rcases mem_ownersSongs_recordSet _ _ _ _ (ihmo x hx) with h | h
          · exact h
          · exact hsongs x (by rw [hget]; simp [h])
        · rw [ihk]
          exact ownerKeys_recordSet_of_has owners₀ q.id srest hhas

theorem secondPassInner_props (players : List Player) (totalRounds : Nat)
    (pool : List RoundSong) (owners : List (String × List RoundSong)) :
    ((secondPassInner players totalRounds pool owners).1.length
        + (ownersSongs (secondPassInner players totalRounds pool owners).2.1).length
      = pool.length + (ownersSongs owners).length)
    ∧ (pool.length ≤ (secondPassInner players totalRounds pool owners).1.length)
    ∧ (pool.length ≤ totalRounds →
        (secondPassInner players totalRounds pool owners).1.length ≤ totalRounds)
    ∧ ((secondPassInner players totalRounds pool owners).2.2 = false →
        (secondPassInner players totalRounds pool owners).1 = pool
        ∧ (secondPassInner players totalRounds pool owners).2.1 = owners
        ∧ (pool.length < totalRounds →
            ∀ p ∈ players, (recordGet owners p.id).getD [] = []))
    ∧ ((secondPassInner players totalRounds pool owners).2.2 = true →
        pool.length + 1 ≤ (secondPassInner players totalRounds pool owners).1.length)
    ∧ (∀ s ∈ (secondPassInner players totalRounds pool owners).1,
        s ∈ pool ∨ s ∈ ownersSongs owners)
    ∧ (∀ s ∈ ownersSongs (secondPassInner players totalRounds pool owners).2.1,
        s ∈ ownersSongs owners)
    ∧ (ownerKeys (secondPassInner players totalRounds pool owners).2.1
        = ownerKeys owners) := by
  obtain ⟨h1, h2, h3, h4, h5, h6, h7, h8⟩ :=
    secondPassInnerAux_props totalRounds players pool owners false
  exact ⟨h1, h2, h3, fun h => (fun ⟨a, b, _, d⟩ => ⟨a, b, d⟩) (h4 h),
    h5 rfl, h6, h7, h8⟩

theorem secondPass_succ_eq (players : List Player) (totalRounds fuel : Nat)
    (pool : List RoundSong) (owners : List (String × List RoundSong)) :
    secondPass players totalRounds (fuel + 1) (pool, owners)
      = if pool.length < totalRounds then
          (if (secondPassInner players totalRounds pool owners).2.2 then
            secondPass players totalRounds fuel
              ((secondPassInner players totalRounds pool owners).1,
               (secondPassInner players totalRounds pool owners).2.1)
          else
            ((secondPassInner players totalRounds pool owners).1,
             (secondPassInner players totalRounds pool owners).2.1))
        else (pool, owners) := rfl

theorem secondPass_length (players : List Player) (totalRounds : Nat) :
    ∀ (fuel : Nat) (pool : List RoundSong)
      (owners : List (String × List RoundSong)),
    pool.length ≤ totalRounds →
    (∀ k ∈ ownerKeys owners, k ∈ players.map (·.id)) →
    (ownerKeys owners).Nodup →
    totalRounds - pool.length ≤ fuel →
    (secondPass players totalRounds fuel (pool, owners)).1.length
      = min totalRounds (pool.length + (ownersSongs owners).length) := by
  intro fuel
  induction fuel with
  | zero =>
    intro pool owners hle hkeys hnd hfuel
    have h0 : secondPass players totalRounds 0 (pool, owners)
        = (pool, owners) := rfl
    rw [h0]
    have heq : pool.length = totalRounds := by omega
    rw [show (pool, owners).1 = pool from rfl, heq]
    exact (Nat.min_eq_left (Nat.le_add_right _ _)).symm
  | succ fuel ih =>
    intro pool owners hle hkeys hnd hfuel
    rw [secondPass_succ_eq]
    obtain ⟨i1, i2, i3, i4, i5, i6, i7, i8⟩ :=
      secondPassInner_props players totalRounds pool owners
    by_cases hlt : pool.length < totalRounds
    · rw [if_pos hlt]
      cases hadd : (secondPassInner players totalRounds pool owners).2.2 with
      | true =>
        rw [if_pos rfl]
        have hgrow := i5 hadd
        have hres := ih (secondPassInner players totalRounds pool owners).1
          (secondPassInner players totalRounds pool owners).2.1
          (i3 hle)
          (fun k hk => hkeys k (i8 ▸ hk))
          (i8 ▸ hnd)
          (by omega)
        rw [hres]
        omega
      | false =>
        rw [if_neg (by simp)]
        obtain ⟨ha, hb, hd⟩ := i4 hadd
        rw [show ((secondPassInner players totalRounds pool owners).1,
          (secondPassInner players totalRounds pool owners).2.1).1
          = (secondPassInner players totalRounds pool owners).1 from rfl, ha]
        have hempty : ownersSongs owners = [] := by
          apply ownersSongs_eq_nil
          intro e he
          have hk : e.1 ∈ players.map (·.id) :=
            hkeys e.1 (List.mem_map_of_mem Prod.fst he)
          obtain ⟨p, hpmem, hpid⟩ := List.mem_map.mp hk
          have hget := recordGet_of_mem_nodup owners e hnd he
          have hde := hd hlt p hpmem
          rw [hpid, hget] at hde
          simpa using hde
        rw [hempty]
        simp only [List.length_nil, Nat.add_zero]
        exact (Nat.min_eq_right (by omega)).symm
    · rw [if_neg hlt]
      have heq : pool.length = totalRounds := by omega
      rw [show (pool, owners).1 = pool from rfl, heq]
      exact (Nat.min_eq_left (Nat.le_add_right _ _)).symm

theorem secondPass_mem (players : List Player) (totalRounds : Nat) :
    ∀ (fuel : Nat) (pool : List RoundSong)
      (owners : List (String × List RoundSong)) (s : RoundSong),
    s ∈ (secondPass players totalRounds fuel (pool, owners)).1 →
    s ∈ pool ∨ s ∈ ownersSongs owners := by
  intro fuel
  induction fuel with
  | zero =>
    intro pool owners s hs
    exact Or.inl hs
  | succ fuel ih =>
    intro pool owners s hs
    rw [secondPass_succ_eq] at hs
    obtain ⟨i1, i2, i3, i4, i5, i6, i7, i8⟩ :=
      secondPassInner_props players totalRounds pool owners
    by_cases hlt : pool.length < totalRounds
    · rw [if_pos hlt] at hs
      cases hadd : (secondPassInner players totalRounds pool owners).2.2 with
      | true =>
        rw [if_pos hadd] at hs
        rcases ih _ _ s hs with h | h
        · exact i6 s h
        · exact Or.inr (i7 s h)
      | false =>
        rw [if_neg (by rw [hadd]; simp)] at hs
        exact i6 s hs
    · rw [if_neg hlt] at hs
      exact Or.inl hs

theorem buildSongPool_eq (rand : Nat → Nat) (players : List Player)
    (totalRounds : Nat) (h : ¬ players.length = 0) :
    buildSongPool rand players totalRounds
      = spreadSongsByOwner
          ((shuffleArray rand
            (shuffleOwners rand players
              (claimAll players (maxTracksOf players)).2 0).2
            ((secondPass players totalRounds (totalRounds + 1)
              (firstPass players
                (shuffleOwners rand players
                  (claimAll players (maxTracksOf players)).2 0).1
                (totalRounds / players.length)
                (totalRounds % players.length))).1)).1)
          2 := by
  unfold buildSongPool
  rw [if_neg h]

theorem claimedSongProp_owner_mem (players : List Player) (s : RoundSong)
    (h : claimedSongProp players s) : s.ownerId ∈ players.map (·.id) := by
  obtain ⟨r, i, p, t, hp, ht, hs, hmin⟩ := h
  subst hs
  exact List.mem_map_of_mem _ (List.mem_iff_getElem?.mpr ⟨i, hp⟩)

/-- **C6**: for every nonempty roster and requested round count,
`buildSongPool` returns exactly `min(requestedRounds,
totalUniqueClaimedTracks)` songs (for any random stream), every returned
song's `ownerId` belongs to the roster, and an empty roster yields the
empty pool. -/
theorem buildSongPool_coverage (rand : Nat → Nat) (players : List Player)
    (totalRounds : Nat) :
    (players ≠ [] →
      (buildSongPool rand players totalRounds).length
        = min totalRounds (totalUniqueClaimedTracks players))
    ∧ (∀ s ∈ buildSongPool rand players totalRounds,
        s.ownerId ∈ players.map (·.id))
    ∧ (players = [] → buildSongPool rand players totalRounds = []) := by
  by_cases hne : players = []
  · subst hne
    refine ⟨fun h => absurd rfl h, ?_, fun _ => rfl⟩
    intro s hs
    simp [buildSongPool] at hs
  · have hlen0 : ¬ players.length = 0 :=
      fun h => hne (List.length_eq_zero.mp h)
    obtain ⟨c1, c2, c3, c4, c5, c6⟩ := claimAll_inv players (maxTracksOf players)
    obtain ⟨s1, s2, s3, s4⟩ := shuffleOwners_props rand players
      (claimAll players (maxTracksOf players)).2 0
    obtain ⟨f1, f2, f3, f4, f5, f6⟩ := firstPass_props players
      (shuffleOwners rand players (claimAll players (maxTracksOf players)).2 0).1
      (totalRounds / players.length) (totalRounds % players.length)
    have hkeys1 : ∀ k ∈ ownerKeys
        (shuffleOwners rand players
          (claimAll players (maxTracksOf players)).2 0).1,
        k ∈ players.map (·.id) := by
      intro k hk
      rcases s3 k hk with h | h
      · exact c5 k h
      · exact h
    have hkeys2 : ∀ k ∈ ownerKeys
        (firstPass players
          (shuffleOwners rand players
            (claimAll players (maxTracksOf players)).2 0).1
          (totalRounds / players.length) (totalRounds % players.length)).2,
        k ∈ players.map (·.id) := by
      intro k hk
      rcases f5 k hk with h | h
      · exact hkeys1 k h
      · exact h
    have hnd2 := f6 (s4 c6)
    have hpoollen : (firstPass players
        (shuffleOwners rand players
          (claimAll players (maxTracksOf players)).2 0).1
        (totalRounds / players.length) (totalRounds % players.length)).1.length
        ≤ totalRounds := by
      refine le_trans f2 ?_
      have hdm := Nat.div_add_mod totalRounds players.length
      calc totalRounds / players.length * players.length
            + totalRounds % players.length
          = players.length * (totalRounds / players.length)
            + totalRounds % players.length := by rw [Nat.mul_comm]
        _ = totalRounds := hdm
        _ ≤ totalRounds := le_refl _
    have hsp := secondPass_length players totalRounds (totalRounds + 1)
      (firstPass players
        (shuffleOwners rand players
          (claimAll players (maxTracksOf players)).2 0).1
        (totalRounds / players.length) (totalRounds % players.length)).1
      (firstPass players
        (shuffleOwners rand players
          (claimAll players (maxTracksOf players)).2 0).1
        (totalRounds / players.length) (totalRounds % players.length)).2
      hpoollen hkeys2 hnd2 (by omega)
    have hcount := claimAll_count players
    have hsperm := spreadSongsByOwner_perm
      ((shuffleArray rand
        (shuffleOwners rand players
          (claimAll players (maxTracksOf players)).2 0).2
        ((secondPass players totalRounds (totalRounds + 1)
          (firstPass players
            (shuffleOwners rand players
              (claimAll players (maxTracksOf players)).2 0).1
            (totalRounds / players.length)
            (totalRounds % players.length))).1)).1) 2
    have hshperm := shuffleArray_perm rand
      (shuffleOwners rand players
        (claimAll players (maxTracksOf players)).2 0).2
      ((secondPass players totalRounds (totalRounds + 1)
        (firstPass players
          (shuffleOwners rand players
            (claimAll players (maxTracksOf players)).2 0).1
          (totalRounds / players.length)
          (totalRounds % players.length))).1)
    refine ⟨fun _ => ?_, ?_, fun h => absurd h hne⟩
    · rw [buildSongPool_eq rand players totalRounds hlen0,
        hsperm.length_eq, hshperm.length_eq, hsp, f1, s1, hcount]
    · intro s hs
      rw [buildSongPool_eq rand players totalRounds hlen0] at hs
      have hs1 := hshperm.mem_iff.mp (hsperm.mem_iff.mp hs)
      rcases secondPass_mem players totalRounds (totalRounds + 1) _ _ s hs1
        with h | h
      · exact claimedSongProp_owner_mem players s (c4 s (s2 s (f3 s h)))
      · exact claimedSongProp_owner_mem players s (c4 s (s2 s (f4 s h)))

/-- C6 witness: the concrete three-player roster with 5 distinct tracks
and 5 requested rounds yields a pool of exactly `min 5 5 = 5` songs, all
owned by roster members. -/
theorem buildSongPool_coverage_witness :
    (buildSongPool c8Rand c8Roster 5).length
      = min 5 (totalUniqueClaimedTracks c8Roster)
    ∧ ((buildSongPool c8Rand c8Roster 5).getD 0 undefinedSong).ownerId
        ∈ c8Roster.map (·.id) :=
  ⟨(buildSongPool_coverage c8Rand c8Roster 5).1 (by decide),
   (buildSongPool_coverage c8Rand c8Roster 5).2.1 _ (by decide)⟩

/-! ## C7: the claimed owner is the spec owner -/

theorem findIdx?_spec_some {α : Type} (pred : α → Bool) (l : List α) :
    ∀ (n : Nat), (∃ a, l[n]? = some a ∧ pred a = true) →
    (∀ m, m < n → ∀ b, l[m]? = some b → pred b = false) →
    l.findIdx? pred = some n := by
  induction l with
  | nil =>
    rintro n ⟨a, ha, _⟩ _
    simp at ha
  | cons x xs ih =>
    intro n hn hbefore
    rw [List.findIdx?_cons]
    cases n with
    | zero =>
      obtain ⟨a, ha, hpa⟩ := hn
      rw [List.getElem?_cons_zero] at ha
      injection ha with ha
      subst ha
      rw [if_pos hpa]
    | succ n' =>
      have hx : pred x = false :=
        hbefore 0 (Nat.succ_pos _) x List.getElem?_cons_zero
      rw [if_neg (by simp [hx]), List.findIdx?_succ]
      have hres := ih n'
        (by
          obtain ⟨a, ha, hpa⟩ := hn
          rw [List.getElem?_cons_succ] at ha
          exact ⟨a, ha, hpa⟩)
        (fun m hm b hb =>
          hbefore (m + 1) (by omega) b (by rw [List.getElem?_cons_succ]; exact hb))
      rw [hres]
      rfl

theorem findIdx?_spec_inv {α : Type} (pred : α → Bool) (l : List α) :
    ∀ (n : Nat), l.findIdx? pred = some n →
    (∃ a, l[n]? = some a ∧ pred a = true)
    ∧ (∀ m, m < n → ∀ b, l[m]? = some b → pred b = false) := by
  induction l with
  | nil =>
    intro n h
    rw [List.findIdx?_nil] at h
    exact Option.noConfusion h
  | cons x xs ih =>
    intro n h
    rw [List.findIdx?_cons] at h
    by_cases hx : pred x = true
    · rw [if_pos hx] at h
      injection h with h
      subst h
      exact ⟨⟨x, List.getElem?_cons_zero, hx⟩,
        fun m hm b hb => absurd hm (by omega)⟩
    · rw [if_neg hx, List.findIdx?_succ] at h
      cases hfi : xs.findIdx? pred with
      | none =>
        rw [hfi] at h
        exact Option.noConfusion h
      | some k =>
        rw [hfi] at h
        have hk : k + 1 = n := by
          simpa using h
        subst hk
        obtain ⟨hex, hbef⟩ := ih k hfi
        constructor
        · obtain ⟨a, ha, hpa⟩ := hex
          exact ⟨a, by rw [List.getElem?_cons_succ]; exact ha, hpa⟩
        · intro m hm b hb
          cases m with
          | zero =>
            rw [List.getElem?_cons_zero] at hb
            injection hb with hb
            subst hb
            exact Bool.eq_false_iff.mpr hx
          | succ m' =>
            rw [List.getElem?_cons_succ] at hb
            exact hbef m' (by omega) b hb

theorem rankOfTrack_of_min (players : List Player) (p : Player)
    (i r : Nat) (t : SpotifyTrack)
    (hp : players[i]? = some p) (ht : p.topTracks[r]? = some t)
    (hmin : ∀ r' i', trackIdAt players r' i' = some t.id →
        r < r' ∨ (r = r' ∧ i ≤ i')) :
    rankOfTrack p t.id = some r := by
  unfold rankOfTrack
  apply findIdx?_spec_some
  · refine ⟨t.id, ?_, by simp⟩
    rw [List.getElem?_map, ht]
    rfl
  · intro m hm b hb
    rw [List.getElem?_map] at hb
    cases htm : p.topTracks[m]? with
    | none =>
      rw [htm] at hb
      exact Option.noConfusion hb
    | some u =>
      rw [htm] at hb
      injection hb with hb
      subst hb
      by_contra hcontra
      have hbu : u.id = t.id := by
        have := Bool.not_eq_false _ |>.mp hcontra
        simpa using this
      have hocc : trackIdAt players m i = some t.id := by
        rw [trackIdAt, hp]
        simp [htm, hbu]
      rcases hmin m i hocc with h' | ⟨h', _⟩ <;> omega

theorem rankOfTrack_occ (players : List Player) (q : Player) (i' : Nat)
    (trackId : String) (rq : Nat)
    (hq : players[i']? = some q) (hr : rankOfTrack q trackId = some rq) :
    trackIdAt players rq i' = some trackId := by
  unfold rankOfTrack at hr
  obtain ⟨⟨a, ha, hpa⟩, _⟩ := findIdx?_spec_inv _ _ rq hr
  rw [List.getElem?_map] at ha
  cases htm : q.topTracks[rq]? with
  | none =>
    rw [htm] at ha
    exact Option.noConfusion ha
  | some u =>
    rw [htm] at ha
    injection ha with ha
    subst ha
    have hid : u.id = trackId := by simpa using hpa
    rw [trackIdAt, hq]
    simp [htm, hid]

theorem foldPick_keep (l : List (Nat × String)) (best : Nat × String)
    (h : ∀ y ∈ l, best.1 ≤ y.1) :
    l.foldl (fun best y => if y.1 < best.1 then y else best) best = best := by
  induction l with
  | nil => rfl
  | cons z zs ih =>
    rw [List.foldl_cons, if_neg (by have := h z (by simp); omega)]
    exact ih (fun y hy => h y (by simp [hy]))

theorem foldPick_mem (l : List (Nat × String)) :
    ∀ (best : Nat × String),
    l.foldl (fun best y => if y.1 < best.1 then y else best) best ∈ best :: l := by
  induction l with
  | nil =>
    intro best
    simp
  | cons z zs ih =>
    intro best
    rw [List.foldl_cons]
    by_cases h : z.1 < best.1
    · rw [if_pos h]
      rcases List.mem_cons.mp (ih z) with h' | h'
      · simp [h']
      · simp [List.mem_cons.mpr (Or.inr h')]
    · rw [if_neg h]
      rcases List.mem_cons.mp (ih best) with h' | h'
      · simp [h']
      · simp [List.mem_cons.mpr (Or.inr h')]

theorem specOwner_spec (players : List Player) (trackId : String)
    (pre post : List (Nat × String)) (r : Nat) (pid : String)
    (hranked : players.filterMap
        (fun q => (rankOfTrack q trackId).map (fun rq => (rq, q.id)))
      = pre ++ (r, pid) :: post)
    (hpre : ∀ y ∈ pre, r < y.1) (hpost : ∀ y ∈ post, r ≤ y.1) :
    specOwner players trackId = some pid := by
  unfold specOwner
  rw [hranked]
  cases pre with
  | nil =>
    rw [List.nil_append]
    show some ((post.foldl
      (fun best y => if y.1 < best.1 then y else best) (r, pid)).2) = some pid
    rw [foldPick_keep post (r, pid) (fun y hy => hpost y hy)]
  | cons w ws =>
    show some (((ws ++ (r, pid) :: post).foldl
      (fun best y => if y.1 < best.1 then y else best) w).2) = some pid
    rw [List.foldl_append]
    have hb := foldPick_mem ws w
    have hbgt : r <
        (ws.foldl (fun best y => if y.1 < best.1 then y else best) w).1 := by
      rcases List.mem_cons.mp hb with h' | h'
      · rw [h']
        exact hpre w (by simp)
      · exact hpre _ (by simp [h'])
    rw [List.foldl_cons, if_pos hbgt,
      foldPick_keep post (r, pid) (fun y hy => hpost y hy)]

theorem specOwner_of_claimed (players : List Player) (s : RoundSong)
    (h : claimedSongProp players s) :
    specOwner players s.track.id = some s.ownerId := by
  obtain ⟨r, i, p, t, hp, ht, hs, hmin⟩ := h
  subst hs
  show specOwner players t.id = some p.id
  obtain ⟨hi, hpi⟩ := List.getElem?_eq_some.mp hp
  have hsplit : players = players.take i ++ p :: players.drop (i + 1) := by
    conv_lhs => rw [← List.take_append_drop i players]
    rw [List.drop_eq_getElem_cons hi, hpi]
  have hfp : rankOfTrack p t.id = some r :=
    rankOfTrack_of_min players p i r t hp ht hmin
  have hpre : ∀ y ∈ (players.take i).filterMap
      (fun q => (rankOfTrack q t.id).map (fun rq => (rq, q.id))), r < y.1 := by
    intro y hy
    obtain ⟨q, hqmem, hq⟩ := List.mem_filterMap.mp hy
    obtain ⟨j, hj⟩ := List.mem_iff_getElem?.mp hqmem
    rw [List.getElem?_take] at hj
    by_cases hji : j < i
    · rw [if_pos hji] at hj
      cases hrq : rankOfTrack q t.id with
      | none =>
        rw [hrq] at hq
        exact Option.noConfusion hq
      | some rq =>
        rw [hrq] at hq
        injection hq with hq
        subst hq
        show r < rq
        have hocc := rankOfTrack_occ players q j t.id rq hj hrq
        rcases hmin rq j hocc with h' | ⟨h', h''⟩
        · exact h'
        · omega
    · rw [if_neg hji] at hj
      exact Option.noConfusion hj
  have hpost : ∀ y ∈ (players.drop (i + 1)).filterMap
      (fun q => (rankOfTrack q t.id).map (fun rq => (rq, q.id))), r ≤ y.1 := by
    intro y hy
    obtain ⟨q, hqmem, hq⟩ := List.mem_filterMap.mp hy
    obtain ⟨j, hj⟩ := List.mem_iff_getElem?.mp hqmem
    rw [List.getElem?_drop] at hj
    cases hrq : rankOfTrack q t.id with
    | none =>
      rw [hrq] at hq
      exact Option.noConfusion hq
    | some rq =>
      rw [hrq] at hq
      injection hq with hq
      subst hq
      show r ≤ rq
      have hocc := rankOfTrack_occ players q (i + 1 + j) t.id rq hj hrq
      rcases hmin rq (i + 1 + j) hocc with h' | ⟨h', _⟩ <;> omega
  refine specOwner_spec players t.id _ _ r p.id ?_ hpre hpost
  conv_lhs => rw [hsplit]
  rw [List.filterMap_append, List.filterMap_cons, hfp]
  rfl

/-- Every song in any `buildSongPool` result was claimed by the
ownership-resolution scan, so it satisfies `claimedSongProp`. -/
theorem buildSongPool_claimedProp (rand : Nat → Nat) (players : List Player)
    (totalRounds : Nat) :
    ∀ s ∈ buildSongPool rand players totalRounds,
      claimedSongProp players s := by
  intro s hs
  by_cases hne : players.length = 0
  · unfold buildSongPool at hs
    rw [if_pos hne] at hs
    simp at hs
  · rw [buildSongPool_eq rand players totalRounds hne] at hs
    obtain ⟨c1, c2, c3, c4, c5, c6⟩ := claimAll_inv players (maxTracksOf players)
    obtain ⟨s1, s2, s3, s4⟩ := shuffleOwners_props rand players
      (claimAll players (maxTracksOf players)).2 0
    obtain ⟨f1, f2, f3, f4, f5, f6⟩ := firstPass_props players
      (shuffleOwners rand players (claimAll players (maxTracksOf players)).2 0).1
      (totalRounds / players.length) (totalRounds % players.length)
    have hs1 := (shuffleArray_perm rand
      (shuffleOwners rand players
        (claimAll players (maxTracksOf players)).2 0).2 _).mem_iff.mp
      ((spreadSongsByOwner_perm _ 2).mem_iff.mp hs)
    rcases secondPass_mem players totalRounds (totalRounds + 1) _ _ s hs1
      with h | h
    · exact c4 s (s2 s (f3 s h))
    · exact c4 s (s2 s (f4 s h))

/-- **C7**: in every pool returned by `buildSongPool` (for any random
stream), each song's owner is the one prescribed by the spec's ownership
rule — the player ranking the track id at the lowest index, ties broken in
favor of the earliest player in roster order (`specOwner`); consequently
no track id appears under two different owners. -/
theorem buildSongPool_single_ownership (rand : Nat → Nat)
    (players : List Player) (totalRounds : Nat) :
    (∀ s ∈ buildSongPool rand players totalRounds,
        specOwner players s.track.id = some s.ownerId)
    ∧ (∀ s1 ∈ buildSongPool rand players totalRounds,
       ∀ s2 ∈ buildSongPool rand players totalRounds,
        s1.track.id = s2.track.id → s1.ownerId = s2.ownerId) := by
  have hmain := buildSongPool_claimedProp rand players totalRounds
  refine ⟨fun s hs => specOwner_of_claimed players s (hmain s hs), ?_⟩
  intro s1 h1 s2 h2 heq
  have e1 := specOwner_of_claimed players s1 (hmain s1 h1)
  have e2 := specOwner_of_claimed players s2 (hmain s2 h2)
  rw [heq, e2] at e1
  injection e1 with e1
  exact e1.symm

/-- C7 witness: on the concrete three-player roster, the first song of the
computed pool resolves through `specOwner` to its recorded owner. -/
theorem buildSongPool_single_ownership_witness :
    specOwner c8Roster
        ((buildSongPool c8Rand c8Roster 5).getD 0 undefinedSong).track.id
      = some ((buildSongPool c8Rand c8Roster 5).getD 0 undefinedSong).ownerId :=
  (buildSongPool_single_ownership c8Rand c8Roster 5).1 _ (by decide)

/-! ## C8: what the anti-streak scan actually guarantees -/

theorem runBack_zero (songs : List RoundSong) (i : Nat) (owner : String)
    (off : Nat) : runBack songs i owner off 0 = 0 := rfl

theorem runBack_succ (songs : List RoundSong) (i : Nat) (owner : String)
    (off b : Nat) :
    runBack songs i owner off (b + 1)
      = match songs[i - off]? with
        | some s =>
          if s.ownerId == owner then 1 + runBack songs i owner (off + 1) b
          else 0
        | none => 0 := rfl

theorem listSwap_eq_of_some {α : Type} {l : List α} {i j : Nat} {a b : α}
    (h1 : l[i]? = some a) (h2 : l[j]? = some b) :
    listSwap l i j = (l.set i b).set j a := by
  unfold listSwap
  rw [h1, h2]

theorem listSwap_getElem?_other {α : Type} (l : List α) (i j p : Nat)
    (hpi : p ≠ i) (hpj : p ≠ j) : (listSwap l i j)[p]? = l[p]? := by
  unfold listSwap
  split
  · rw [List.getElem?_set_ne (Ne.symm hpj), List.getElem?_set_ne (Ne.symm hpi)]
  · rfl

theorem listSwap_getElem?_fst {α : Type} (l : List α) (i j : Nat) (a b : α)
    (h1 : l[i]? = some a) (h2 : l[j]? = some b) (hij : i ≠ j) :
    (listSwap l i j)[i]? = some b := by
  rw [listSwap_eq_of_some h1 h2, List.getElem?_set_ne (Ne.symm hij)]
  obtain ⟨hi, _⟩ := List.getElem?_eq_some.mp h1
  exact List.getElem?_set_self (by simpa using hi)

theorem spreadStep_eq_none {mc : Nat} {l : List RoundSong} {i : Nat}
    (h : l[i]? = none) : spreadStep mc l i = l := by
  unfold spreadStep
  rw [h]

theorem spreadStep_eq_noRun {mc : Nat} {l : List RoundSong} {i : Nat}
    {si : RoundSong} (h : l[i]? = some si)
    (hcnt : ¬ (mc < 1 + runBack l i si.ownerId 1 mc)) :
    spreadStep mc l i = l := by
  simp only [spreadStep, h]
  rw [if_neg hcnt]

theorem spreadStep_eq_stuck {mc : Nat} {l : List RoundSong} {i : Nat}
    {si : RoundSong} (h : l[i]? = some si)
    (hcnt : mc < 1 + runBack l i si.ownerId 1 mc)
    (hf : findSwapIdx l i si.ownerId = none) :
    spreadStep mc l i = l := by
  simp only [spreadStep, h, hf]
  rw [if_pos hcnt]

theorem spreadStep_eq_swap {mc : Nat} {l : List RoundSong} {i k : Nat}
    {si : RoundSong} (h : l[i]? = some si)
    (hcnt : mc < 1 + runBack l i si.ownerId 1 mc)
    (hf : findSwapIdx l i si.ownerId = some k) :
    spreadStep mc l i = listSwap l i k := by
  simp only [spreadStep, h, hf]
  rw [if_pos hcnt]

theorem findSwapIdx_none (songs : List RoundSong) (i : Nat) (owner : String)
    (h : findSwapIdx songs i owner = none) :
    ∀ k, i < k → k < songs.length → ∀ s, songs[k]? = some s →
      s.ownerId = owner := by
  intro k hik hk s hs
  unfold findSwapIdx at h
  have hn := List.find?_eq_none.mp h k (List.mem_range.mpr hk)
  simp [hs, hik] at hn
  exact hn

theorem findSwapIdx_some (songs : List RoundSong) (i : Nat) (owner : String)
    (k : Nat) (h : findSwapIdx songs i owner = some k) :
    i < k ∧ k < songs.length
    ∧ ∃ s, songs[k]? = some s ∧ s.ownerId ≠ owner := by
  unfold findSwapIdx at h
  have hmem := List.mem_of_find?_eq_some h
  have hpred := List.find?_some h
  have hk : k < songs.length := List.mem_range.mp hmem
  have hik : i < k := by
    by_contra hcon
    simp [hcon] at hpred
  refine ⟨hik, hk, ?_⟩
  cases hs : songs[k]? with
  | none =>
    rw [hs] at hpred
    simp at hpred
  | some s =>
    rw [hs] at hpred
    simp [hik] at hpred
    exact ⟨s, rfl, hpred⟩

theorem runBack_two_iff (songs : List RoundSong) (i : Nat) (owner : String) :
    (2 < 1 + runBack songs i owner 1 2) ↔
      ((songs[i-1]?.map (·.ownerId)) = some owner
        ∧ (songs[i-2]?.map (·.ownerId)) = some owner) := by
  have hidx : i - (1 + 1) = i - 2 := by omega
  cases h1 : songs[i - 1]? with
  | none => simp [runBack, h1]
  | some s1 =>
    cases h2 : songs[i - 2]? with
    | none =>
      by_cases ho1 : s1.ownerId = owner <;>
        simp [runBack, h1, h2, ho1, hidx]
    | some s2 =>
      by_cases ho1 : s1.ownerId = owner <;>
        by_cases ho2 : s2.ownerId = owner <;>
        simp [runBack, h1, h2, ho1, ho2, hidx]

theorem ownerAt_eq_some_of_lt (l : List RoundSong) (j : Nat)
    (hj : j < l.length) : ownerAt l j = some (l[j]).ownerId := by
  rw [ownerAt, List.getElem?_eq_getElem hj]
  rfl

theorem lt_length_of_ownerAt_ne_none (l : List RoundSong) (j : Nat)
    (h : ownerAt l j ≠ none) : j < l.length := by
  by_contra hcon
  push_neg at hcon
  rw [ownerAt, List.getElem?_eq_none hcon] at h
  exact h rfl

theorem spreadStep_good (l : List RoundSong) (m : Nat) (h2 : 2 ≤ m)
    (hm : m < l.length) (hg : spreadGood l m) :
    (spreadStep 2 l m).length = l.length
    ∧ spreadGood (spreadStep 2 l m) (m + 1) := by
  have hsm : l[m]? = some l[m] := List.getElem?_eq_getElem hm
  have hOm : ownerAt l m = some (l[m]).ownerId := ownerAt_eq_some_of_lt l m hm
  by_cases hrun : 2 < 1 + runBack l m (l[m]).ownerId 1 2
  · cases hf : findSwapIdx l m (l[m]).ownerId with
    | none =>
      rw [spreadStep_eq_stuck hsm hrun hf]
      refine ⟨rfl, ?_⟩
      intro p hp2 hpm1 hrunp
      by_cases hpm : p < m
      · exact hg p hp2 hpm hrunp
      · have hpm' : p = m := by omega
        subst hpm'
        obtain ⟨hrb1, hrb2⟩ := (runBack_two_iff l p (l[p]).ownerId).mp hrun
        have howner2 : ownerAt l (p - 2) = some (l[p]).ownerId := hrb2
        intro j hj hjlen
        rw [howner2]
        by_cases hj2 : j = p - 2
        · rw [hj2, howner2]
        · by_cases hj1 : j = p - 1
          · rw [hj1]
            exact hrb1
          · by_cases hjp : j = p
            · rw [hjp]
              exact hOm
            · have hjgt : p < j := by omega
              have hjs : l[j]? = some l[j] := List.getElem?_eq_getElem hjlen
              have hown := findSwapIdx_none l p (l[p]).ownerId hf j hjgt hjlen
                (l[j]) hjs
              rw [ownerAt_eq_some_of_lt l j hjlen, hown]
    | some k =>
      obtain ⟨hmk, hkl, sk, hsk, hsko⟩ := findSwapIdx_some l m (l[m]).ownerId k hf
      rw [spreadStep_eq_swap hsm hrun hf]
      refine ⟨listSwap_length l m k, ?_⟩
      intro p hp2 hpm1 hrunp
      exfalso
      by_cases hpm : p < m
      · have e0 : ownerAt (listSwap l m k) p = ownerAt l p := by
          rw [ownerAt, ownerAt, listSwap_getElem?_other l m k p (by omega) (by omega)]
        have e1 : ownerAt (listSwap l m k) (p - 1) = ownerAt l (p - 1) := by
          rw [ownerAt, ownerAt, listSwap_getElem?_other l m k (p - 1) (by omega) (by omega)]
        have e2 : ownerAt (listSwap l m k) (p - 2) = ownerAt l (p - 2) := by
          rw [ownerAt, ownerAt, listSwap_getElem?_other l m k (p - 2) (by omega) (by omega)]
        obtain ⟨ha, hb, hc⟩ := hrunp
        have hro : runEndAt l p := by
          refine ⟨?_, ?_, ?_⟩
          · rw [← e0]
            exact ha
          · rw [← e2, ← e0]
            exact hb
          · rw [← e1, ← e0]
            exact hc
        have htail := hg p hp2 hpm hro
        have htm := htail m (by omega) hm
        have htk := htail k (by omega) hkl
        rw [hOm] at htm
        rw [ownerAt, hsk] at htk
        rw [← htm] at htk
        simp at htk
        exact hsko htk
      · have hpm' : p = m := by omega
        subst hpm'
        obtain ⟨ha, hb, hc⟩ := hrunp
        have e1 : ownerAt (listSwap l p k) (p - 1) = ownerAt l (p - 1) := by
          rw [ownerAt, ownerAt, listSwap_getElem?_other l p k (p - 1) (by omega) (by omega)]
        have e0 : ownerAt (listSwap l p k) p = some sk.ownerId := by
          rw [ownerAt, listSwap_getElem?_fst l p k _ _ hsm hsk (by omega)]
          rfl
        obtain ⟨hrb1, _⟩ := (runBack_two_iff l p (l[p]).ownerId).mp hrun
        rw [e1, e0] at hc
        rw [ownerAt] at hc
        rw [hrb1] at hc
        injection hc with hc
        exact hsko hc.symm
  · rw [spreadStep_eq_noRun hsm hrun]
    refine ⟨rfl, ?_⟩
    intro p hp2 hpm1 hrunp
    by_cases hpm : p < m
    · exact hg p hp2 hpm hrunp
    · have hpm' : p = m := by omega
      subst hpm'
      exfalso
      apply hrun
      rw [runBack_two_iff]
      obtain ⟨ha, hb, hc⟩ := hrunp
      rw [hOm] at hb hc
      exact ⟨hc, hb⟩

theorem spreadLoop_good : ∀ (c m : Nat) (l : List RoundSong),
    2 ≤ m → m + c = l.length → spreadGood l m →
    ((List.range' m c).foldl (spreadStep 2) l).length = l.length
    ∧ spreadGood ((List.range' m c).foldl (spreadStep 2) l) (m + c) := by
  intro c
  induction c with
  | zero =>
    intro m l h2 hlen hg
    exact ⟨rfl, by simpa using hg⟩
  | succ c ih =>
    intro m l h2 hlen hg
    rw [List.range'_succ, List.foldl_cons]
    have hm : m < l.length := by omega
    obtain ⟨hl1, hg1⟩ := spreadStep_good l m h2 hm hg
    obtain ⟨hl2, hg2⟩ := ih (m + 1) (spreadStep 2 l m) (by omega) (by omega) hg1
    refine ⟨by rw [hl2, hl1], ?_⟩
    have harith : m + (c + 1) = m + 1 + c := by omega
    rw [harith]
    exact hg2

theorem spreadSongsByOwner_good (songs : List RoundSong) :
    spreadGood (spreadSongsByOwner songs 2)
      (spreadSongsByOwner songs 2).length := by
  unfold spreadSongsByOwner
  by_cases hle : songs.length ≤ 2
  · rw [if_pos hle]
    intro p hp2 hplen hrun
    have := lt_length_of_ownerAt_ne_none songs p hrun.1
    omega
  · rw [if_neg hle]
    have hgen : ∀ n, 2 ≤ n → (List.range n).drop 2 = List.range' 2 (n - 2) := by
      intro n hn
      rw [List.range_eq_range']
      conv_lhs => rw [show n = n - 2 + 2 from by omega,
        ← List.range'_append 0 2 (n - 2) 1]
      rw [List.drop_left' (by simp)]
    rw [hgen songs.length (by omega)]
    obtain ⟨hl, hg⟩ := spreadLoop_good (songs.length - 2) 2 songs (le_refl 2)
      (by omega) (fun p hp2 hplt _ => absurd hplt (by omega))
    have h2len : 2 + (songs.length - 2) = songs.length := by omega
    rw [h2len] at hg
    rw [hl]
    exact hg

/-- **C8 counterexample**: on the concrete three-player roster (players
`A`, `B`, `C` contributing 3, 1 and 1 songs) and the random stream that
always draws 4, `buildSongPool` returns a 5-song pool whose owner sequence
is `B, C, A, A, A`: three distinct owners, five songs, and owner `A`
occupies the last three consecutive positions even though an arrangement
without a 3-run exists — the left-to-right scan finds no later
different-owner position to swap with. -/
theorem buildSongPool_run3_cex :
    (buildSongPool c8Rand c8Roster 5).map (·.ownerId) = ["B", "C", "A", "A", "A"]
    ∧ run3At (buildSongPool c8Rand c8Roster 5) 2
    ∧ ((buildSongPool c8Rand c8Roster 5).map (·.ownerId)).dedup.length = 3
    ∧ (buildSongPool c8Rand c8Roster 5).length = 5 := by decide

/-- **C8 amended**: the anti-streak pass guarantees that any run of three
or more consecutive same-owner positions in a `buildSongPool` result can
only occur as an all-one-owner tail — every position from the start of the
run to the end of the pool holds that same owner (in particular, but not
only, when a single owner contributed). -/
theorem buildSongPool_run3_tail (rand : Nat → Nat) (players : List Player)
    (totalRounds : Nat) (i : Nat)
    (hrun : run3At (buildSongPool rand players totalRounds) i) :
    ∀ j, i ≤ j → j < (buildSongPool rand players totalRounds).length →
      ownerAt (buildSongPool rand players totalRounds) j
        = ownerAt (buildSongPool rand players totalRounds) i := by
  have hres : ∃ base, buildSongPool rand players totalRounds
      = spreadSongsByOwner base 2 := by
    by_cases hne : players.length = 0
    · refine ⟨[], ?_⟩
      unfold buildSongPool
      rw [if_pos hne]
      simp [spreadSongsByOwner]
    · exact ⟨_, buildSongPool_eq rand players totalRounds hne⟩
  obtain ⟨base, hb⟩ := hres
  rw [hb] at hrun ⊢
  obtain ⟨ha, hab, hbc⟩ := hrun
  have hnn2 : ownerAt (spreadSongsByOwner base 2) (i + 2) ≠ none := by
    rw [← hbc, ← hab]
    exact ha
  have hi2 : i + 2 < (spreadSongsByOwner base 2).length :=
    lt_length_of_ownerAt_ne_none _ _ hnn2
  have hrend : runEndAt (spreadSongsByOwner base 2) (i + 2) := by
    refine ⟨hnn2, ?_, ?_⟩
    · rw [show i + 2 - 2 = i from by omega, hab, hbc]
    · rw [show i + 2 - 1 = i + 1 from by omega, hbc]
  have htail := spreadSongsByOwner_good base (i + 2) (by omega) hi2 hrend
  intro j hj hjlen
  have hres := htail j (by omega) hjlen
  rw [show i + 2 - 2 = i from by omega] at hres
  exact hres

/-- C8 witness: on the concrete pool `B, C, A, A, A` the run starting at
position 2 extends to the end — position 4 holds the same owner as
position 2. -/
theorem buildSongPool_run3_tail_witness :
    ownerAt (buildSongPool c8Rand c8Roster 5) 4
      = ownerAt (buildSongPool c8Rand c8Roster 5) 2 :=
  buildSongPool_run3_tail c8Rand c8Roster 5 2 (by decide) 4 (by decide) (by decide)

end MusicRoulette
